import Mathlib

/-!
# Verification of the `pr_comments.py` batch-reply engine

This file gives a shallow embedding of the batch-reply orchestrator of
`pr_comments.py` (the `reply-batch` command) and proves / refutes the frozen
claims about it.

The embedding models:
* JSON documents (the job document read from disk, after `json.load`),
  as a mutual inductive `Json` type so that every recursion is structural;
* Python truthiness, `dict.get`, the `or` operator on optional values;
* `json.dumps(·, sort_keys=True)` and the SHA-256 based job fingerprint;
* `_marker`, `_already_replied`, `_parse_comment_ref`;
* the orchestrator loop of `reply_batch_from_json`, with the network
  modelled as an environment of response oracles and every transport call
  recorded in an event trace.
-/

namespace PrComments

/-! ## JSON values

`Json` is the value produced by `json.load`.  Arrays and objects use the
bespoke list types `JsonArr` / `JsonObj` so that all recursive functions on
documents are structural (and hence reduce in the kernel). -/

mutual

inductive Json : Type where
  | null : Json
  | bool : Bool → Json
  | num : Int → Json
  | str : String → Json
  | arr : JsonArr → Json
  | obj : JsonObj → Json
  deriving DecidableEq

inductive JsonArr : Type where
  | nil : JsonArr
  | cons : Json → JsonArr → JsonArr
  deriving DecidableEq

inductive JsonObj : Type where
  | nil : JsonObj
  | cons : String → Json → JsonObj → JsonObj
  deriving DecidableEq

end

/-- The entries of a JSON object, as an ordinary list of key/value pairs. -/
def JsonObj.toList : JsonObj → List (String × Json)
  | .nil => []
  | .cons k v t => (k, v) :: t.toList

/-- Build a JSON object from a list of key/value pairs. -/
def JsonObj.ofList : List (String × Json) → JsonObj
  | [] => .nil
  | (k, v) :: t => .cons k v (JsonObj.ofList t)

/-- The elements of a JSON array, as an ordinary list. -/
def JsonArr.toList : JsonArr → List Json
  | .nil => []
  | .cons x t => x :: t.toList

/-- Build a JSON array from a list. -/
def JsonArr.ofList : List Json → JsonArr
  | [] => .nil
  | x :: t => .cons x (JsonArr.ofList t)

/-- Convenience constructor: object from a key/value list. -/
def Json.mkObj (l : List (String × Json)) : Json := .obj (JsonObj.ofList l)

/-- Convenience constructor: array from a list. -/
def Json.mkArr (l : List Json) : Json := .arr (JsonArr.ofList l)

theorem JsonObj.toListOfListObj (l : List (String × Json)) :
    (JsonObj.ofList l).toList = l := by
  induction l with
  | nil => rfl
  | cons h t ih => cases h; simp [JsonObj.ofList, JsonObj.toList, ih]

theorem JsonArr.toListOfListArr (l : List Json) :
    (JsonArr.ofList l).toList = l := by
  induction l with
  | nil => rfl
  | cons h t ih => simp [JsonArr.ofList, JsonArr.toList, ih]

/-- First binding of key `k` in an object (Python dicts produced by
`json.load` have unique keys, so first = only). -/
def JsonObj.find? : JsonObj → String → Option Json
  | .nil, _ => none
  | .cons k v t, k' => if k = k' then some v else t.find? k'

/-- `d.get(k)` on a Python value: key lookup for dicts, `None`-like absence
for everything else (non-dict receivers raise in Python; every use site in
the embedded code either guards the receiver or models the raise). -/
def Json.get? : Json → String → Option Json
  | .obj kvs, k => kvs.find? k
  | _, _ => none

/-- Python truthiness of a JSON value (`bool(v)`). -/
def Json.truthy : Json → Bool
  | .null => false
  | .bool b => b
  | .num n => n ≠ 0
  | .str s => s ≠ ""
  | .arr .nil => false
  | .arr _ => true
  | .obj .nil => false
  | .obj _ => true

/-- Truthiness of an optional value (`bool(x)` where `x` may be `None`,
i.e. a missing key). -/
def optTruthy : Option Json → Bool
  | some v => v.truthy
  | none => false

/-- Python `a or b` where `a`, `b` are optional values (`None` for a
missing key): returns `a` when `a` is truthy, else `b`. -/
def pyOr (a b : Option Json) : Option Json :=
  match a with
  | some v => if v.truthy then some v else b
  | none => b

/-! ## Python string helpers -/

/-- `str.rstrip()`: drop trailing whitespace. -/
def pyRstrip (s : String) : String :=
  ⟨(s.data.reverse.dropWhile Char.isWhitespace).reverse⟩

/-- `str.strip()`: drop leading and trailing whitespace. -/
def pyStrip (s : String) : String :=
  ⟨((s.data.dropWhile Char.isWhitespace).reverse.dropWhile Char.isWhitespace).reverse⟩

/-- `str.lower()` (ASCII case folding suffices for the characters the
orchestrator compares). -/
def pyLower (s : String) : String := ⟨s.data.map Char.toLower⟩

/-- Digit-string value: `int("d₁…dₙ")` for a non-empty all-digit string. -/
def digitsToNat (ds : List Char) : Nat :=
  ds.foldl (fun a c => a * 10 + (c.toNat - 48)) 0

/-- `int(·)` applied to a JSON value, as Python does it: ints pass through,
bools become 0/1, strings are parsed (optional surrounding whitespace and
sign), everything else raises. -/
def pyInt : Json → Except String Int
  | .num n => .ok n
  | .bool b => .ok (if b then 1 else 0)
  | .str s =>
    let t := (pyStrip s).data
    let core : List Char × Bool :=
      match t with
      | '-' :: rest => (rest, true)
      | '+' :: rest => (rest, false)
      | rest => (rest, false)
    if core.1 ≠ [] ∧ core.1.all Char.isDigit then
      .ok (if core.2 then -(digitsToNat core.1 : Int) else (digitsToNat core.1 : Int))
    else
      .error "invalid literal for int()"
  | _ => .error "int() argument must be a string or a number"

/-! ## Idempotency marker and ledger (`_marker`, `_already_replied`) -/

/-- `_marker(fp, parent_id)`:
`f"<!-- moliri-reply:\x7bfp\x7d:\x7bparent_id\x7d -->"`. -/
def marker (fp : String) (parentId : Int) : String :=
  "<!-- moliri-reply:" ++ fp ++ ":" ++ toString parentId ++ " -->"

/-- One review comment as returned by the paginated listing
(`_list_review_comments`); only the fields the scan reads. -/
structure RemoteComment where
  in_reply_to_id : Option Int
  body : Option String
  deriving DecidableEq

/-- `_already_replied`: true iff some listed comment is a direct reply to
`parentId` whose body contains the marker
(`c.get("in_reply_to_id") == parent_id and m in (c.get("body") or "")`). -/
def alreadyReplied (cs : List RemoteComment) (parentId : Int) (fp : String) : Bool :=
  cs.any fun c =>
    c.in_reply_to_id == some parentId &&
      decide ((marker fp parentId).data <:+: (c.body.getD "").data)

/-! ## Reference resolution (`_parse_comment_ref`) -/

/-- Split a character list into (stem, maximal digit suffix). -/
def splitDigitSuffix (l : List Char) : List Char × List Char :=
  let r := l.reverse
  let d := r.takeWhile Char.isDigit
  ((r.drop d.length).reverse, d.reverse)

/-- `re.search(r"#discussion_r(\d+)$", s)` followed by `int(m.group(1))`:
the string must end in one or more digits immediately preceded by the
literal `#discussion_r`. -/
def discussionRef (s : String) : Option Nat :=
  let p := splitDigitSuffix s.data
  if p.2 ≠ [] ∧ "#discussion_r".data <:+ p.1 then some (digitsToNat p.2) else none

/-- The `comment`-URL branch of `_parse_comment_ref`, applied to
`item.get("comment", "")` (so a missing key behaves like `""`).  A
non-string value raises inside the regex call; the orchestrator catches
every exception the same way, so all failures are `.error`. -/
def commentUrlRef (cv : Option Json) : Except String Int :=
  match cv with
  | some (.str s) =>
    match discussionRef s with
    | some n => .ok (n : Int)
    | none => .error "Provide comment_id or a comment URL ending with #discussion_r<ID>"
  | some _ => .error "TypeError: expected string or bytes-like object"
  | none => .error "Provide comment_id or a comment URL ending with #discussion_r<ID>"

/-- `_parse_comment_ref(item)`: a present, non-null `comment_id` is passed
to `int(...)`; otherwise the `comment` URL is consulted. -/
def parseCommentRef (item : Json) : Except String Int :=
  match item.get? "comment_id" with
  | some v => if v ≠ Json.null then pyInt v else commentUrlRef (item.get? "comment")
  | none => commentUrlRef (item.get? "comment")

/-! ## Per-item effective settings (lines 228–230 of the source) -/

/-- `react = item.get("react") or policy.get("react_default")`. -/
def effReact (item policy : Json) : Option Json :=
  pyOr (item.get? "react") (policy.get? "react_default")

/-- `want_resolve = bool(item.get("resolve") or policy.get("auto_resolve"))`. -/
def effResolve (item policy : Json) : Bool :=
  optTruthy (pyOr (item.get? "resolve") (policy.get? "auto_resolve"))

/-- `item.get("body") or ""` (the value the reply body is built from). -/
def bodyVal (item : Json) : Json :=
  match item.get? "body" with
  | some v => if v.truthy then v else .str ""
  | none => .str ""

/-- `(item.get("body") or "").rstrip()` succeeds only on strings; a truthy
non-string `body` raises `AttributeError` *outside* any `try` block
(line 228), crashing the whole run — modelled by `none`. -/
def bodyStr? (item : Json) : Option String :=
  match bodyVal item with
  | .str s => some (pyRstrip s)
  | _ => none

/-! ## SHA-256 and the job fingerprint

`fp = hashlib.sha256(json.dumps(spec, sort_keys=True).encode("utf-8")).hexdigest()[:12]`.

SHA-256 is implemented on `List Nat` bytes, all arithmetic mod `2^32`. -/

def M32 : Nat := 4294967296

def add32 (a b : Nat) : Nat := (a + b) % M32

def rotr32 (n x : Nat) : Nat := ((x >>> n) ||| (x <<< (32 - n))) % M32

def shaCh (x y z : Nat) : Nat := (x &&& y) ^^^ ((x ^^^ (M32 - 1)) &&& z)

def shaMaj (x y z : Nat) : Nat := (x &&& y) ^^^ (x &&& z) ^^^ (y &&& z)

def bsig0 (x : Nat) : Nat := rotr32 2 x ^^^ rotr32 13 x ^^^ rotr32 22 x

def bsig1 (x : Nat) : Nat := rotr32 6 x ^^^ rotr32 11 x ^^^ rotr32 25 x

def ssig0 (x : Nat) : Nat := rotr32 7 x ^^^ rotr32 18 x ^^^ (x >>> 3)

def ssig1 (x : Nat) : Nat := rotr32 17 x ^^^ rotr32 19 x ^^^ (x >>> 10)

/-- The 64 SHA-256 round constants. -/
def shaK : List Nat :=
  [1116352408, 1899447441, 3049323471, 3921009573, 961987163, 1508970993,
   2453635748, 2870763221, 3624381080, 310598401, 607225278, 1426881987,
   1925078388, 2162078206, 2614888103, 3248222580, 3835390401, 4022224774,
   264347078, 604807628, 770255983, 1249150122, 1555081692, 1996064986,
   2554220882, 2821834349, 2952996808, 3210313671, 3336571891, 3584528711,
   113926993, 338241895, 666307205, 773529912, 1294757372, 1396182291,
   1695183700, 1986661051, 2177026350, 2456956037, 2730485921, 2820302411,
   3259730800, 3345764771, 3516065817, 3600352804, 4094571909, 275423344,
   430227734, 506948616, 659060556, 883997877, 958139571, 1322822218,
   1537002063, 1747873779, 1955562222, 2024104815, 2227730452, 2361852424,
   2428436474, 2756734187, 3204031479, 3329325298]

/-- The SHA-256 initial hash value. -/
def shaH0 : List Nat :=
  [1779033703, 3144134277, 1013904242, 2773480762,
   1359893119, 2600822924, 528734635, 1541459225]

/-- Append the SHA-256 padding to a byte string. -/
def shaPad (msg : List Nat) : List Nat :=
  let L := msg.length
  let k := (64 - ((L + 9) % 64)) % 64
  let bits := 8 * L
  msg ++ [128] ++ List.replicate k 0 ++
    [bits >>> 56 % 256, bits >>> 48 % 256, bits >>> 40 % 256, bits >>> 32 % 256,
     bits >>> 24 % 256, bits >>> 16 % 256, bits >>> 8 % 256, bits % 256]

/-- Group bytes into big-endian 32-bit words. -/
def bytesToWords : List Nat → List Nat
  | b0 :: b1 :: b2 :: b3 :: rest =>
    (((b0 * 256 + b1) * 256 + b2) * 256 + b3) :: bytesToWords rest
  | _ => []

/-- Group words into 16-word blocks (the padded message is always a
multiple of 16 words). -/
def toBlocks : List Nat → List (List Nat)
  | w0 :: w1 :: w2 :: w3 :: w4 :: w5 :: w6 :: w7 ::
    w8 :: w9 :: w10 :: w11 :: w12 :: w13 :: w14 :: w15 :: rest =>
    [w0, w1, w2, w3, w4, w5, w6, w7, w8, w9, w10, w11, w12, w13, w14, w15] :: toBlocks rest
  | _ => []

/-- Extend the 16-word block to the 64-word message schedule
(`n` more words to append). -/
def extendW : Nat → List Nat → List Nat
  | 0, w => w
  | n + 1, w =>
    let t := add32 (add32 (ssig1 (w.getD (w.length - 2) 0)) (w.getD (w.length - 7) 0))
                   (add32 (ssig0 (w.getD (w.length - 15) 0)) (w.getD (w.length - 16) 0))
    extendW n (w ++ [t])

/-- The eight working variables of the compression function. -/
structure ShaState where
  a : Nat
  b : Nat
  c : Nat
  d : Nat
  e : Nat
  f : Nat
  g : Nat
  h : Nat
  deriving DecidableEq

/-- One round of the SHA-256 compression function. -/
def shaRound (s : ShaState) (kw : Nat × Nat) : ShaState :=
  let t1 := add32 s.h (add32 (bsig1 s.e) (add32 (shaCh s.e s.f s.g) (add32 kw.1 kw.2)))
  let t2 := add32 (bsig0 s.a) (shaMaj s.a s.b s.c)
  ⟨add32 t1 t2, s.a, s.b, s.c, add32 s.d t1, s.e, s.f, s.g⟩

/-- Compress one 16-word block into the running hash. -/
def compressBlock (hv : List Nat) (block : List Nat) : List Nat :=
  let w := extendW 48 block
  let s0 : ShaState :=
    ⟨hv.getD 0 0, hv.getD 1 0, hv.getD 2 0, hv.getD 3 0,
     hv.getD 4 0, hv.getD 5 0, hv.getD 6 0, hv.getD 7 0⟩
  let s := (shaK.zip w).foldl shaRound s0
  [add32 (hv.getD 0 0) s.a, add32 (hv.getD 1 0) s.b, add32 (hv.getD 2 0) s.c,
   add32 (hv.getD 3 0) s.d, add32 (hv.getD 4 0) s.e, add32 (hv.getD 5 0) s.f,
   add32 (hv.getD 6 0) s.g, add32 (hv.getD 7 0) s.h]

/-- SHA-256 of a byte string, as eight 32-bit words. -/
def sha256 (msg : List Nat) : List Nat :=
  (toBlocks (bytesToWords (shaPad msg))).foldl compressBlock shaH0

def hexChar (n : Nat) : Char := if n < 10 then Char.ofNat (48 + n) else Char.ofNat (87 + n)

def wordToHex (w : Nat) : List Char :=
  [hexChar (w >>> 28 % 16), hexChar (w >>> 24 % 16), hexChar (w >>> 20 % 16),
   hexChar (w >>> 16 % 16), hexChar (w >>> 12 % 16), hexChar (w >>> 8 % 16),
   hexChar (w >>> 4 % 16), hexChar (w % 16)]

/-- `hashlib.sha256(bytes).hexdigest()`. -/
def sha256hex (msg : List Nat) : String :=
  ⟨((sha256 msg).map wordToHex).flatten⟩

/-- UTF-8 encoding of one character (`str.encode("utf-8")`). -/
def utf8Char (c : Char) : List Nat :=
  let n := c.toNat
  if n < 0x80 then [n]
  else if n < 0x800 then [0xc0 + n / 64, 0x80 + n % 64]
  else if n < 0x10000 then [0xe0 + n / 4096, 0x80 + n / 64 % 64, 0x80 + n % 64]
  else [0xf0 + n / 262144, 0x80 + n / 4096 % 64, 0x80 + n / 64 % 64, 0x80 + n % 64]

/-- UTF-8 encoding of a character list. -/
def utf8Bytes : List Char → List Nat
  | [] => []
  | c :: t => utf8Char c ++ utf8Bytes t

/-! ## `json.dumps(·, sort_keys=True)`

`dumpJson` serializes with Python's default separators (`", "` / `": "`)
and `ensure_ascii=True` escaping, iterating object entries in stored
order; `canon` recursively sorts every object's entries by key.
`json.dumps(spec, sort_keys=True)` iterates each object in sorted key
order while serializing values unchanged, which is exactly
`dumpJson (canon spec)`. -/

def lbrace : Char := Char.ofNat 123

def rbrace : Char := Char.ofNat 125

/-- Hex digits of a 16-bit value, for `\uXXXX` escapes. -/
def u4 (n : Nat) : List Char :=
  [hexChar (n / 4096 % 16), hexChar (n / 256 % 16), hexChar (n / 16 % 16), hexChar (n % 16)]

/-- Escape one character as Python's `json.dumps` (with the default
`ensure_ascii=True`) does. -/
def escChar (c : Char) : List Char :=
  let n := c.toNat
  if c = '"' then ['\\', '"']
  else if c = '\\' then ['\\', '\\']
  else if c = Char.ofNat 10 then ['\\', 'n']
  else if c = Char.ofNat 9 then ['\\', 't']
  else if c = Char.ofNat 13 then ['\\', 'r']
  else if c = Char.ofNat 8 then ['\\', 'b']
  else if c = Char.ofNat 12 then ['\\', 'f']
  else if n < 0x20 then '\\' :: 'u' :: u4 n
  else if n < 0x7f then [c]
  else if n ≤ 0xffff then '\\' :: 'u' :: u4 n
  else
    let m := n - 0x10000
    ('\\' :: 'u' :: u4 (0xd800 + m / 1024)) ++ ('\\' :: 'u' :: u4 (0xdc00 + m % 1024))

def escString : List Char → List Char
  | [] => []
  | c :: t => escChar c ++ escString t

mutual

/-- Serialize a JSON value (Python default separators, ASCII escaping). -/
def dumpJson : Json → List Char
  | .null => "null".data
  | .bool true => "true".data
  | .bool false => "false".data
  | .num n => (toString n).data
  | .str s => '"' :: (escString s.data ++ ['"'])
  | .arr xs => '[' :: (dumpArr xs ++ [']'])
  | .obj kvs => lbrace :: (dumpObjItems kvs ++ [rbrace])

def dumpArr : JsonArr → List Char
  | .nil => []
  | .cons x .nil => dumpJson x
  | .cons x t => dumpJson x ++ ',' :: ' ' :: dumpArr t

def dumpObjItems : JsonObj → List Char
  | .nil => []
  | .cons k v .nil => '"' :: (escString k.data ++ '"' :: ':' :: ' ' :: dumpJson v)
  | .cons k v t =>
    ('"' :: (escString k.data ++ '"' :: ':' :: ' ' :: dumpJson v)) ++ ',' :: ' ' :: dumpObjItems t

end

/-- Code-point lexicographic `<=` on character lists (how Python compares
the key strings for `sorted`). -/
def strLeB : List Char → List Char → Bool
  | [], _ => true
  | _ :: _, [] => false
  | a :: as, b :: bs =>
    if a.toNat < b.toNat then true
    else if b.toNat < a.toNat then false
    else strLeB as bs

/-- Key order used by `sort_keys=True` (compare keys as strings). -/
def keyLE (a b : String × Json) : Prop := strLeB a.1.data b.1.data = true

instance : DecidableRel keyLE :=
  fun a b => inferInstanceAs (Decidable (strLeB a.1.data b.1.data = true))

/-- Sort object entries by key (Python `sorted` on dict items by key). -/
def sortKVs (l : List (String × Json)) : List (String × Json) :=
  List.insertionSort keyLE l

mutual

/-- Recursively sort every object's entries by key. -/
def canon : Json → Json
  | .null => .null
  | .bool b => .bool b
  | .num n => .num n
  | .str s => .str s
  | .arr xs => .arr (canonArr xs)
  | .obj kvs => .obj (JsonObj.ofList (sortKVs (canonObj kvs).toList))

def canonArr : JsonArr → JsonArr
  | .nil => .nil
  | .cons x t => .cons (canon x) (canonArr t)

def canonObj : JsonObj → JsonObj
  | .nil => .nil
  | .cons k v t => .cons k (canon v) (canonObj t)

end

/-- `json.dumps(spec, sort_keys=True)`. -/
def canonicalDumps (j : Json) : String := ⟨dumpJson (canon j)⟩

/-- The job fingerprint:
`hashlib.sha256(json.dumps(spec, sort_keys=True).encode("utf-8")).hexdigest()[:12]`. -/
def fingerprint (j : Json) : String :=
  ⟨(sha256hex (utf8Bytes (canonicalDumps j).data)).data.take 12⟩

/-! ## The batch orchestrator (`reply_batch_from_json`)

The network is an environment of response oracles; every transport call is
recorded as a `CallEvent`, every printed progress line as a `ReportLine`.
A Python exception raised by a transport call is the `.error` case of the
corresponding oracle. -/

/-- A transport call made during the run. -/
inductive CallEvent where
  | listComments
  | postReply (parentId : Int) (body : String)
  | addReaction (parentId : Int) (emoji : Json)
  | fetchComment (parentId : Int)
  | fetchThread (nodeId : String)
  | resolveThread (threadId : String)
  deriving DecidableEq

/-- A printed per-item progress line. -/
inductive ReportLine where
  | parseErr (msg : String)
  | scanErr (parentId : Int) (msg : String)
  | skipped (parentId : Int)
  | replyDry (parentId : Int)
  | replyOk (parentId : Int) (newId : Option Int)
  | replyErr (parentId : Int) (msg : String)
  | reactDry (parentId : Int)
  | reactOk (parentId : Int)
  | reactExists (parentId : Int)
  | reactErr (parentId : Int) (msg : String)
  | resolveDry (parentId : Int)
  | resolveOkLine (threadId : String)
  | resolveAlready (threadId : String)
  | resolveErr (parentId : Int) (msg : String)
  deriving DecidableEq

/-- An exception from a REST call: either `requests.HTTPError` carrying the
response status, or any other exception. -/
inductive PyErr where
  | httpError (status : Nat)
  | exn (msg : String)
  deriving DecidableEq

/-- The remote side, as response oracles.  `comments` is the full listing
that `_list_review_comments` would stream (or the exception it raises);
`reactResult` is the HTTP status of the reaction POST (or a non-HTTP
exception); the rest mirror the calls of the reply and resolve steps. -/
structure Env where
  comments : Except String (List RemoteComment)
  postReply : Int → String → Except String (Option Int)
  reactResult : Int → Json → Except String Nat
  fetchComment : Int → Except String String
  fetchThread : String → Except String (String × Bool)
  resolveThread : String → Except String Unit

/-- What one item contributed: its report lines, its transport calls,
whether it recorded an error, and whether it broke the loop. -/
structure ItemResult where
  reports : List ReportLine
  events : List CallEvent
  errored : Bool
  brk : Bool
  deriving DecidableEq

/-- Run two consecutive steps: the second is attempted only when the first
did not break the loop. -/
def seqSteps (r1 r2 : ItemResult) : ItemResult :=
  if r1.brk then r1
  else ⟨r1.reports ++ r2.reports, r1.events ++ r2.events, r1.errored || r2.errored, r2.brk⟩

/-- The reply-posting step (lines 246–258): print `DRY RUN` under
`dry_run`, otherwise post and on failure record the error and break the
loop iff `fail_on_error` is truthy. -/
def replyStep (env : Env) (dry foe : Bool) (pid : Int) (body : String) : ItemResult :=
  if dry then ⟨[.replyDry pid], [], false, false⟩
  else
    match env.postReply pid body with
    | .ok nid => ⟨[.replyOk pid nid], [.postReply pid body], false, false⟩
    | .error e => ⟨[.replyErr pid e], [.postReply pid body], true, foe⟩

/-- `_react_to_review_comment` (lines 125–130): POST the reaction; statuses
200, 201 and 422 return normally, any other status goes through
`raise_for_status()`, which raises `HTTPError` exactly for 4xx/5xx. -/
def reactToReviewComment (env : Env) (pid : Int) (emoji : Json) : Except PyErr Unit :=
  match env.reactResult pid emoji with
  | .error msg => .error (.exn msg)
  | .ok s =>
    if s = 200 ∨ s = 201 ∨ s = 422 then .ok ()
    else if 400 ≤ s ∧ s < 600 then .error (.httpError s)
    else .ok ()

/-- The reaction step (lines 260–282), including the orchestrator's
`except requests.HTTPError` handler that reports status 422 as `exists`
and everything else as an error. -/
def reactStep (env : Env) (dry foe : Bool) (pid : Int) (react : Option Json) : ItemResult :=
  if optTruthy react then
    if dry then ⟨[.reactDry pid], [], false, false⟩
    else
      match reactToReviewComment env pid (react.getD .null) with
      | .ok _ => ⟨[.reactOk pid], [.addReaction pid (react.getD .null)], false, false⟩
      | .error (.httpError s) =>
        if s = 422 then ⟨[.reactExists pid], [.addReaction pid (react.getD .null)], false, false⟩
        else ⟨[.reactErr pid (toString s)], [.addReaction pid (react.getD .null)], true, foe⟩
      | .error (.exn e) => ⟨[.reactErr pid e], [.addReaction pid (react.getD .null)], true, foe⟩
  else ⟨[], [], false, false⟩

/-- The thread-resolution step (lines 284–306): fetch the comment's node
id, map it to its thread, resolve only when not already resolved; any
exception along the way is one `RESOLVE … error` line. -/
def resolveStep (env : Env) (dry foe : Bool) (pid : Int) (want : Bool) : ItemResult :=
  if want then
    if dry then ⟨[.resolveDry pid], [], false, false⟩
    else
      match env.fetchComment pid with
      | .error e => ⟨[.resolveErr pid e], [.fetchComment pid], true, foe⟩
      | .ok nodeId =>
        match env.fetchThread nodeId with
        | .error e => ⟨[.resolveErr pid e], [.fetchComment pid, .fetchThread nodeId], true, foe⟩
        | .ok ti =>
          if !ti.2 then
            match env.resolveThread ti.1 with
            | .ok _ =>
              ⟨[.resolveOkLine ti.1],
               [.fetchComment pid, .fetchThread nodeId, .resolveThread ti.1], false, false⟩
            | .error e =>
              ⟨[.resolveErr pid e],
               [.fetchComment pid, .fetchThread nodeId, .resolveThread ti.1], true, foe⟩
          else ⟨[.resolveAlready ti.1], [.fetchComment pid, .fetchThread nodeId], false, false⟩
  else ⟨[], [], false, false⟩

/-- One iteration of the `for item in replies` loop (lines 218–306).
`none` models the uncaught `AttributeError` of line 228 (a truthy
non-string `body`), which crashes the whole run. -/
def runItem (env : Env) (policy : Json) (fp : String) (dry : Bool) (item : Json) :
    Option ItemResult :=
  let foe := optTruthy (policy.get? "fail_on_error")
  match parseCommentRef item with
  | .error e => some ⟨[.parseErr e], [], true, foe⟩
  | .ok pid =>
    match bodyStr? item with
    | none => none
    | some b =>
      let body := b ++ "\n\n" ++ marker fp pid
      let react := effReact item policy
      let want := effResolve item policy
      match env.comments with
      | .error e => some ⟨[.scanErr pid e], [.listComments], true, foe⟩
      | .ok cs =>
        if alreadyReplied cs pid fp then
          some ⟨[.skipped pid], [.listComments], false, false⟩
        else
          let r := seqSteps (replyStep env dry foe pid body)
            (seqSteps (reactStep env dry foe pid react) (resolveStep env dry foe pid want))
          some ⟨r.reports, .listComments :: r.events, r.errored, r.brk⟩

/-- Accumulated run state: the `had_error` flag and everything printed and
called so far. -/
structure RunState where
  hadError : Bool
  reports : List ReportLine
  events : List CallEvent
  deriving DecidableEq

/-- Fold one item's contribution into the run state. -/
def mergeState (st : RunState) (r : ItemResult) : RunState :=
  ⟨st.hadError || r.errored, st.reports ++ r.reports, st.events ++ r.events⟩

/-- The loop over `replies`: a broken iteration ends the run (the `break`
statements), a crash (`none`) aborts it. -/
def runItems (env : Env) (policy : Json) (fp : String) (dry : Bool) :
    List Json → RunState → Option RunState
  | [], st => some st
  | it :: rest, st =>
    match runItem env policy fp dry it with
    | none => none
    | some r =>
      if r.brk then some (mergeState st r)
      else runItems env policy fp dry rest (mergeState st r)

/-- The validation block (lines 186–195): `spec["meta"]["owner"]`,
`…["repo"]`, `int(spec["meta"]["pr"])`, and the non-empty-list check on
`spec.get("replies", [])`.  Any exception becomes
`SystemExit("Invalid JSON spec: …")`. -/
def validateSpec (doc : Json) : Except String (Json × Json × Int × List Json) :=
  match doc.get? "meta" with
  | none => .error "KeyError: meta"
  | some meta =>
    match meta.get? "owner" with
    | none => .error "KeyError: owner"
    | some owner =>
      match meta.get? "repo" with
      | none => .error "KeyError: repo"
      | some repo =>
        match meta.get? "pr" with
        | none => .error "KeyError: pr"
        | some prv =>
          match pyInt prv with
          | .error e => .error e
          | .ok pr =>
            match (doc.get? "replies").getD (Json.mkArr []) with
            | .arr xs =>
              if xs.toList.isEmpty then .error "replies must be a non-empty array"
              else .ok (owner, repo, pr, xs.toList)
            | _ => .error "replies must be a non-empty array"

/-- The final outcome of one `reply_batch_from_json` invocation. -/
inductive BatchOutcome where
  | invalidSpec (msg : String)
  | aborted
  | crashed
  | finished (st : RunState) (exitOne : Bool)
  deriving DecidableEq

/-- `policy.get("confirm", True)` as a gate condition. -/
def confirmRequired (policy : Json) : Bool :=
  match policy.get? "confirm" with
  | some v => v.truthy
  | none => true

/-- Run the loop and apply the final
`if had_error and policy.get("fail_on_error"): sys.exit(1)`. -/
def executeItems (env : Env) (policy : Json) (fp : String) (dry : Bool)
    (items : List Json) : BatchOutcome :=
  match runItems env policy fp dry items ⟨false, [], []⟩ with
  | none => .crashed
  | some st => .finished st (st.hadError && optTruthy (policy.get? "fail_on_error"))

/-- `reply_batch_from_json` on an already-loaded document: validate,
compute the fingerprint, pass the confirmation gate
(`input("Proceed? [y/N] ").strip().lower() == "y"`, asked only when
`policy.get("confirm", True)` is truthy and this is not a dry run), then
run the items.  The preview block (lines 201–208) only prints and swallows
its own exceptions, so it is omitted. -/
def replyBatch (doc : Json) (env : Env) (answer : String) (dry : Bool) : BatchOutcome :=
  match validateSpec doc with
  | .error e => .invalidSpec e
  | .ok v =>
    let policy := (doc.get? "policy").getD (Json.mkObj [])
    let fp := fingerprint doc
    if confirmRequired policy && !dry then
      if pyLower (pyStrip answer) = "y" then executeItems env policy fp dry v.2.2.2
      else .aborted
    else executeItems env policy fp dry v.2.2.2

/-- The process exit status of an outcome (`SystemExit` with a message and
an uncaught exception both exit non-zero; `sys.exit(1)` is 1; everything
else, the declined confirmation included, exits 0). -/
def exitCodeOf : BatchOutcome → Nat
  | .invalidSpec _ => 1
  | .crashed => 1
  | .aborted => 0
  | .finished _ true => 1
  | .finished _ false => 0

/-- The transport calls an outcome performed. -/
def eventsOf : BatchOutcome → List CallEvent
  | .finished st _ => st.events
  | _ => []

/-- The report lines an outcome printed. -/
def reportsOf : BatchOutcome → List ReportLine
  | .finished st _ => st.reports
  | _ => []

/-- `bool(policy.get("fail_on_error"))`. -/
def foeOf (policy : Json) : Bool := optTruthy (policy.get? "fail_on_error")

/-- `runItem` with the (never-used) crash case defaulted, for stating that
a run with `fail_on_error` falsy folds over *all* items. -/
def runItemD (env : Env) (policy : Json) (fp : String) (dry : Bool) (item : Json) : ItemResult :=
  (runItem env policy fp dry item).getD ⟨[], [], false, false⟩

/-- Report lines that can be printed during a dry run: per-item failures
before the mutation steps, skips, and the three `DRY RUN` lines. -/
def dryReport : ReportLine → Bool
  | .parseErr _ => true
  | .scanErr _ _ => true
  | .skipped _ => true
  | .replyDry _ => true
  | .reactDry _ => true
  | .resolveDry _ => true
  | _ => false

/-! ## Structural lemmas about the per-item protocol -/

theorem replyStep_brk (env : Env) (dry foe : Bool) (pid : Int) (body : String) :
    (replyStep env dry foe pid body).brk = ((replyStep env dry foe pid body).errored && foe) := by
  unfold replyStep
  split
  · rfl
  · split <;> simp

theorem reactStep_brk (env : Env) (dry foe : Bool) (pid : Int) (react : Option Json) :
    (reactStep env dry foe pid react).brk = ((reactStep env dry foe pid react).errored && foe) := by
  unfold reactStep
  split
  · split
    · rfl
    · split
      · simp
      · split <;> simp
      · simp
  · rfl

theorem resolveStep_brk (env : Env) (dry foe : Bool) (pid : Int) (want : Bool) :
    (resolveStep env dry foe pid want).brk = ((resolveStep env dry foe pid want).errored && foe) := by
  unfold resolveStep
  split
  · split
    · rfl
    · split
      · simp
      · split
        · simp
        · split
          · split <;> simp
          · simp
  · rfl

theorem seqSteps_brk {foe : Bool} {r1 r2 : ItemResult}
    (h1 : r1.brk = (r1.errored && foe)) (h2 : r2.brk = (r2.errored && foe)) :
    (seqSteps r1 r2).brk = ((seqSteps r1 r2).errored && foe) := by
  unfold seqSteps
  split
  · exact h1
  · next hbrk =>
    cases foe with
    | false => simpa using h2
    | true =>
      rw [h1] at hbrk
      simp only [Bool.and_true] at hbrk
      simp [hbrk, h2]

/-- Whatever an item does, it breaks the loop exactly when it recorded an
error and `fail_on_error` is truthy. -/
theorem runItem_brk (env : Env) (policy : Json) (fp : String) (dry : Bool) (item : Json)
    (r : ItemResult) (h : runItem env policy fp dry item = some r) :
    r.brk = (r.errored && foeOf policy) := by
  unfold runItem at h
  simp only at h
  split at h
  · cases h; rfl
  · split at h
    · exact absurd h (by simp)
    · split at h
      · cases h; rfl
      · split at h
        · cases h; rfl
        · cases h
          exact seqSteps_brk (replyStep_brk ..) (seqSteps_brk (reactStep_brk ..) (resolveStep_brk ..))

/-- A broken iteration ends the loop with exactly that item's contribution. -/
theorem runItems_break (env : Env) (policy : Json) (fp : String) (dry : Bool)
    (item : Json) (rest : List Json) (st : RunState) (r : ItemResult)
    (h : runItem env policy fp dry item = some r) (hb : r.brk = true) :
    runItems env policy fp dry (item :: rest) st = some (mergeState st r) := by
  unfold runItems
  rw [h]
  simp [hb]

/-- With `fail_on_error` falsy no iteration breaks, so (crashes aside) the
loop folds over every item in order. -/
theorem runItems_all (env : Env) (policy : Json) (fp : String) (dry : Bool)
    (hfoe : foeOf policy = false) :
    ∀ (items : List Json) (st : RunState),
      (∀ it ∈ items, (runItem env policy fp dry it).isSome = true) →
      runItems env policy fp dry items st =
        some (items.foldl (fun s it => mergeState s (runItemD env policy fp dry it)) st) := by
  intro items
  induction items with
  | nil => intro st _; rfl
  | cons it rest ih =>
    intro st hall
    have hs : (runItem env policy fp dry it).isSome = true := hall it (by simp)
    obtain ⟨r, hr⟩ := Option.isSome_iff_exists.mp hs
    have hbrk : r.brk = false := by
      rw [runItem_brk env policy fp dry it r hr, hfoe, Bool.and_false]
    unfold runItems
    rw [hr]
    simp only [hbrk, if_false, List.foldl_cons]
    rw [ih (mergeState st r) (fun x hx => hall x (by simp [hx]))]
    simp [runItemD, hr]

/-! ## C3 — effective react / resolve -/

/-- Concrete item and policy exhibiting the `or`-semantics of line 230. -/
def c3item : Json := Json.mkObj [("comment_id", .num 1), ("resolve", .bool false)]

def c3policy : Json := Json.mkObj [("auto_resolve", .bool true)]

/-- C3 (counterexample).  The claim says a per-item `resolve: false` under a
policy with `auto_resolve: true` has effective resolve `false`; the code
computes `bool(item.get("resolve") or policy.get("auto_resolve"))`, and
Python's `or` falls through on the falsy `False`, so the effective resolve
is `true`. -/
theorem effective_resolve_override_fails :
    c3item.get? "resolve" = some (.bool false) ∧
    c3policy.get? "auto_resolve" = some (.bool true) ∧
    effResolve c3item c3policy = true :=
  ⟨rfl, rfl, rfl⟩

/-- C3 (amended).  The effective reaction is the item's `react` when that
value is truthy (for a string: non-empty), else `policy.react_default` —
also when `react` is present but falsy (such as `react: ""`), which falls
back to the default just like an absent key; the effective resolve is the
truthiness of the item's `resolve` if truthy, else of
`policy.auto_resolve` — i.e. Python `or`-semantics, under which a truthy
per-item value overrides but a falsy one (such as `resolve: false`) falls
back to the policy default. -/
theorem effective_settings (item policy : Json) :
    (∀ s : String, item.get? "react" = some (.str s) → s ≠ "" →
      effReact item policy = some (.str s)) ∧
    (∀ v : Json, item.get? "react" = some v → v.truthy = false →
      effReact item policy = policy.get? "react_default") ∧
    (item.get? "react" = none → effReact item policy = policy.get? "react_default") ∧
    (∀ rv : Bool, item.get? "resolve" = some (.bool rv) →
      effResolve item policy = (rv || optTruthy (policy.get? "auto_resolve"))) ∧
    (item.get? "resolve" = none → effResolve item policy = optTruthy (policy.get? "auto_resolve")) := by
  refine ⟨?_, ?_, ?_, ?_, ?_⟩
  · intro s hs hne
    simp [effReact, pyOr, hs, Json.truthy, hne]
  · intro v hv hfalsy
    simp [effReact, pyOr, hv, hfalsy]
  · intro h
    simp [effReact, pyOr, h]
  · intro rv hrv
    cases rv <;> simp [effResolve, pyOr, hrv, Json.truthy, optTruthy]
  · intro h
    simp [effResolve, pyOr, h]

/-- Witness for `effective_settings` at concrete inputs, the present but
empty `react` included. -/
theorem effective_settings_witness :
    effReact (Json.mkObj [("react", .str "eyes"), ("resolve", .bool false)])
        (Json.mkObj [("react_default", .str "+1"), ("auto_resolve", .bool true)]) =
      some (.str "eyes") ∧
    effReact (Json.mkObj [("react", .str "")])
        (Json.mkObj [("react_default", .str "+1")]) = some (.str "+1") ∧
    effResolve (Json.mkObj [("react", .str "eyes"), ("resolve", .bool false)])
        (Json.mkObj [("react_default", .str "+1"), ("auto_resolve", .bool true)]) = true := by
  refine ⟨?_, ?_, ?_⟩
  · exact (effective_settings _ _).1 "eyes" rfl (by decide)
  · exact (effective_settings
      (Json.mkObj [("react", .str "")])
      (Json.mkObj [("react_default", .str "+1")])).2.1 (.str "") rfl (by decide)
  · have h := (effective_settings
      (Json.mkObj [("react", .str "eyes"), ("resolve", .bool false)])
      (Json.mkObj [("react_default", .str "+1"), ("auto_resolve", .bool true)])).2.2.2.1 false rfl
    simpa using h

/-! ## C7 / C10 — reference resolution -/

theorem takeWhile_append_all {p : Char → Bool} :
    ∀ a b : List Char, (∀ x ∈ a, p x = true) → (a ++ b).takeWhile p = a ++ b.takeWhile p := by
  intro a
  induction a with
  | nil => intro b _; rfl
  | cons c t ih =>
    intro b h
    have hc : p c = true := h c (by simp)
    simp [List.takeWhile_cons, hc, ih b (fun x hx => h x (by simp [hx]))]

/-- `discussionRef` on a well-formed permalink returns the trailing digit
group. -/
theorem discussionRef_append (u : String) (ds : List Char)
    (hne : ds ≠ []) (hdig : ∀ c ∈ ds, c.isDigit = true) :
    discussionRef ⟨u.data ++ "#discussion_r".data ++ ds⟩ = some (digitsToNat ds) := by
  have hsplit : splitDigitSuffix (u.data ++ "#discussion_r".data ++ ds) =
      (u.data ++ "#discussion_r".data, ds) := by
    simp only [splitDigitSuffix]
    have h1 : (u.data ++ "#discussion_r".data ++ ds).reverse =
        ds.reverse ++ ("#discussion_r".data.reverse ++ u.data.reverse) := by
      simp [List.reverse_append]
    have h2 : (ds.reverse ++ ("#discussion_r".data.reverse ++ u.data.reverse)).takeWhile
        Char.isDigit = ds.reverse := by
      rw [takeWhile_append_all]
      · simp [List.takeWhile_cons, show ("#discussion_r".data.reverse ++ u.data.reverse) =
          'r' :: ("#discussion_".data.reverse ++ u.data.reverse) from rfl]
      · intro x hx
        exact hdig x (List.mem_reverse.mp hx)
    rw [h1, h2, List.drop_left]
    simp [List.reverse_append]
  unfold discussionRef
  rw [show (String.mk (u.data ++ "#discussion_r".data ++ ds)).data =
    u.data ++ "#discussion_r".data ++ ds from rfl, hsplit]
  simp only
  rw [if_pos]
  exact ⟨hne, ⟨u.data, rfl⟩⟩

/-- C7.  An item with a numeric `comment_id` `n` resolves to `n`; an item
without a usable `comment_id` whose `comment` is a URL ending in
`#discussion_r<digits>` resolves to those digits; an item with neither
field fails with an error. -/
theorem reference_resolution :
    (∀ (item : Json) (n : Int), item.get? "comment_id" = some (.num n) →
      parseCommentRef item = .ok n) ∧
    (∀ (item : Json) (u : String) (ds : List Char),
      (item.get? "comment_id" = none ∨ item.get? "comment_id" = some .null) →
      item.get? "comment" = some (.str ⟨u.data ++ "#discussion_r".data ++ ds⟩) →
      ds ≠ [] → (∀ c ∈ ds, c.isDigit = true) →
      parseCommentRef item = .ok (digitsToNat ds)) ∧
    (∀ item : Json, item.get? "comment_id" = none → item.get? "comment" = none →
      ∃ e, parseCommentRef item = .error e) := by
  refine ⟨?_, ?_, ?_⟩
  · intro item n h
    simp [parseCommentRef, h, pyInt]
  · intro item u ds hcid hc hne hdig
    have hurl : commentUrlRef (item.get? "comment") = .ok (digitsToNat ds) := by
      rw [hc]
      simp only [commentUrlRef]
      rw [discussionRef_append u ds hne hdig]
    rcases hcid with h | h
    · simp [parseCommentRef, h, hurl]
    · simp [parseCommentRef, h, hurl]
  · intro item h1 h2
    refine ⟨"Provide comment_id or a comment URL ending with #discussion_r<ID>", ?_⟩
    simp [parseCommentRef, h1, h2, commentUrlRef]

/-- Witness for `reference_resolution`: `comment_id: 42` resolves to 42,
`…#discussion_r555` resolves to 555, and `\x7b\x7d` fails. -/
theorem reference_resolution_witness :
    parseCommentRef (Json.mkObj [("comment_id", .num 42)]) = .ok 42 ∧
    parseCommentRef (Json.mkObj [("comment", .str "https://example/pull/9#discussion_r555")]) =
      .ok 555 ∧
    ∃ e, parseCommentRef (Json.mkObj []) = .error e := by
  refine ⟨reference_resolution.1 _ 42 rfl, ?_, reference_resolution.2.2 _ rfl rfl⟩
  have h := reference_resolution.2.1 (Json.mkObj
      [("comment", .str "https://example/pull/9#discussion_r555")])
    "https://example/pull/9" ['5', '5', '5'] (Or.inl rfl) rfl (by decide) (by decide)
  simpa using h

/-- C10.  A present, non-null `comment_id` is decisive: resolution is
`int(comment_id)` and the `comment` URL is never inspected; only when
`comment_id` is absent or null is the URL branch taken, and it depends
only on the `comment` field. -/
theorem reference_precedence :
    (∀ (item : Json) (v : Json), item.get? "comment_id" = some v → v ≠ .null →
      parseCommentRef item = pyInt v) ∧
    (∀ item : Json,
      (item.get? "comment_id" = none ∨ item.get? "comment_id" = some .null) →
      parseCommentRef item = commentUrlRef (item.get? "comment")) := by
  constructor
  · intro item v h hv
    simp [parseCommentRef, h, hv]
  · intro item h
    rcases h with h | h <;> simp [parseCommentRef, h]

/-- Witness for `reference_precedence`: with both fields present the
malformed URL is ignored, and with a null `comment_id` the URL decides. -/
theorem reference_precedence_witness :
    parseCommentRef (Json.mkObj [("comment_id", .num 42), ("comment", .str "not a url")]) =
      pyInt (.num 42) ∧
    parseCommentRef (Json.mkObj [("comment_id", .null), ("comment", .str "x#discussion_r7")]) =
      commentUrlRef (some (.str "x#discussion_r7")) :=
  ⟨reference_precedence.1 _ (.num 42) rfl (by decide),
   reference_precedence.2 _ (Or.inr rfl)⟩

/-! ## C2 — reaction status handling -/

/-- The run error flag of a finished outcome. -/
def hadErrorOf : BatchOutcome → Bool
  | .finished st _ => st.hadError
  | _ => false

/-- Environment whose reaction POST always returns HTTP 422. -/
def c2env : Env :=
  { comments := .ok []
    postReply := fun _ _ => .ok (some 9)
    reactResult := fun _ _ => .ok 422
    fetchComment := fun _ => .ok "N1"
    fetchThread := fun _ => .ok ("T1", true)
    resolveThread := fun _ => .ok () }

/-- One-item job with a reaction and no confirmation gate. -/
def c2doc : Json := Json.mkObj
  [("meta", Json.mkObj [("owner", .str "o"), ("repo", .str "r"), ("pr", .num 9)]),
   ("policy", Json.mkObj [("confirm", .bool false)]),
   ("replies", Json.mkArr
     [Json.mkObj [("comment_id", .num 5), ("body", .str "x"), ("react", .str "+1")]])]

/-- C2 (counterexample).  The claim says a reaction call returning HTTP 422
prints an `exists` line.  It does not: `_react_to_review_comment` returns
normally on 422 (only statuses outside 200/201/422 reach
`raise_for_status()`), so the orchestrator's `except requests.HTTPError`
handler — the only place printing `exists` — never sees a 422, and the run
prints `REACT 5: ok`.  The error flag is indeed not set. -/
theorem reaction_422_prints_ok :
    reportsOf (replyBatch c2doc c2env "" false) =
      [.replyOk 5 (some 9), .reactOk 5] ∧
    hadErrorOf (replyBatch c2doc c2env "" false) = false ∧
    exitCodeOf (replyBatch c2doc c2env "" false) = 0 :=
  ⟨rfl, rfl, rfl⟩

theorem reactCall_ok (env : Env) (pid : Int) (emoji : Json) (s : Nat)
    (hs : env.reactResult pid emoji = .ok s) (hok : s = 200 ∨ s = 201 ∨ s = 422) :
    reactToReviewComment env pid emoji = .ok () := by
  unfold reactToReviewComment
  rw [hs]
  simp [hok]

theorem reactCall_raises (env : Env) (pid : Int) (emoji : Json) (s : Nat)
    (hs : env.reactResult pid emoji = .ok s) (h4 : 400 ≤ s) (h6 : s < 600)
    (hnot : ¬(s = 200 ∨ s = 201 ∨ s = 422)) :
    reactToReviewComment env pid emoji = .error (.httpError s) := by
  unfold reactToReviewComment
  rw [hs]
  simp [hnot, h4, h6]

/-- C2 (amended).  HTTP 200, 201 **and 422** all yield a `REACT … ok` line
with the error flag untouched (the helper swallows 422, so the
orchestrator cannot distinguish it and the `exists` line is unreachable —
dead code); a status in 400–599 other than 422 raises, is reported as a
reaction error, sets the error flag, and breaks the loop iff
`fail_on_error` is truthy. -/
theorem reaction_status_handling :
    (∀ (env : Env) (pid : Int) (rv : Json) (foe : Bool) (s : Nat),
      rv.truthy = true → env.reactResult pid rv = .ok s →
      ((s = 200 ∨ s = 201 ∨ s = 422) →
        reactStep env false foe pid (some rv) =
          ⟨[.reactOk pid], [.addReaction pid rv], false, false⟩) ∧
      (400 ≤ s → s < 600 → ¬(s = 200 ∨ s = 201 ∨ s = 422) →
        reactStep env false foe pid (some rv) =
          ⟨[.reactErr pid (toString s)], [.addReaction pid rv], true, foe⟩)) ∧
    (∀ (env : Env) (dry foe : Bool) (pid q : Int) (react : Option Json),
      ReportLine.reactExists q ∉ (reactStep env dry foe pid react).reports) := by
  constructor
  · intro env pid rv foe s htr hs
    constructor
    · intro hok
      have hc : reactToReviewComment env pid rv = .ok () :=
        reactCall_ok env pid rv s hs hok
      simp [reactStep, optTruthy, htr, hc]
    · intro h4 h6 hnot
      have hc : reactToReviewComment env pid rv = .error (.httpError s) :=
        reactCall_raises env pid rv s hs h4 h6 hnot
      have h422 : s ≠ 422 := fun h => hnot (Or.inr (Or.inr h))
      simp [reactStep, optTruthy, htr, hc, h422]
  · intro env dry foe pid q react
    unfold reactStep
    split
    · split
      · simp
      · cases hc : reactToReviewComment env pid (react.getD .null) with
        | ok u => simp
        | error pe =>
          cases pe with
          | exn e => simp
          | httpError s =>
            have h422 : s ≠ 422 := by
              unfold reactToReviewComment at hc
              cases hr : env.reactResult pid (react.getD .null) with
              | error m => rw [hr] at hc; exact absurd hc (by simp)
              | ok st =>
                rw [hr] at hc
                dsimp only at hc
                by_cases h1 : st = 200 ∨ st = 201 ∨ st = 422
                · rw [if_pos h1] at hc; exact absurd hc (by simp)
                · rw [if_neg h1] at hc
                  by_cases h2 : 400 ≤ st ∧ st < 600
                  · rw [if_pos h2] at hc
                    have hst : st = s := by
                      have := hc
                      simp only [Except.error.injEq, PyErr.httpError.injEq] at this
                      exact this
                    intro h
                    exact h1 (Or.inr (Or.inr (by rw [hst, h])))
                  · rw [if_neg h2] at hc; exact absurd hc (by simp)
            simp [h422]
    · simp

/-- Witness for `reaction_status_handling` at a concrete environment. -/
theorem reaction_status_handling_witness :
    reactStep c2env false false 5 (some (.str "+1")) =
      ⟨[.reactOk 5], [.addReaction 5 (.str "+1")], false, false⟩ ∧
    ReportLine.reactExists 5 ∉ (reactStep c2env false false 5 (some (.str "+1"))).reports :=
  ⟨(reaction_status_handling.1 c2env 5 (.str "+1") false 422 (by decide) rfl).1
      (Or.inr (Or.inr rfl)),
   reaction_status_handling.2 c2env false false 5 5 (some (.str "+1"))⟩

/-! ## C9 — the confirmation gate -/

/-- C9.  When `policy.confirm` is absent (default true) or `true` and the
run is not a dry run, the gate admits exactly the answers whose
whitespace-trimmed lowercasing is `"y"`; every other answer ends the run
as `Aborted.` with exit status 0 and no transport call at all. -/
theorem confirmation_gate (doc : Json) (env : Env) (answer : String)
    (v : Json × Json × Int × List Json)
    (hval : validateSpec doc = .ok v)
    (hconf : ((doc.get? "policy").getD (Json.mkObj [])).get? "confirm" = none ∨
      ((doc.get? "policy").getD (Json.mkObj [])).get? "confirm" = some (.bool true)) :
    (pyLower (pyStrip answer) ≠ "y" →
      replyBatch doc env answer false = .aborted ∧
      exitCodeOf (replyBatch doc env answer false) = 0 ∧
      eventsOf (replyBatch doc env answer false) = []) ∧
    (pyLower (pyStrip answer) = "y" →
      replyBatch doc env answer false =
        executeItems env ((doc.get? "policy").getD (Json.mkObj []))
          (fingerprint doc) false v.2.2.2) := by
  have hcr : confirmRequired ((doc.get? "policy").getD (Json.mkObj [])) = true := by
    rcases hconf with h | h <;> simp [confirmRequired, h, Json.truthy]
  constructor
  · intro hne
    have : replyBatch doc env answer false = .aborted := by
      unfold replyBatch
      rw [hval]
      simp [hcr, hne]
    exact ⟨this, by rw [this]; rfl, by rw [this]; rfl⟩
  · intro hy
    unfold replyBatch
    rw [hval]
    simp [hcr, hy]

/-- Document without a `policy` key, for exercising the default gate. -/
def c9doc : Json := Json.mkObj
  [("meta", Json.mkObj [("owner", .str "o"), ("repo", .str "r"), ("pr", .num 9)]),
   ("replies", Json.mkArr [Json.mkObj [("comment_id", .num 5), ("body", .str "x")]])]

/-- Witness for `confirmation_gate`: the answer `yes` aborts with exit 0
and no calls, and the answer `" Y "` proceeds. -/
theorem confirmation_gate_witness :
    (replyBatch c9doc c2env "yes" false = .aborted ∧
      exitCodeOf (replyBatch c9doc c2env "yes" false) = 0 ∧
      eventsOf (replyBatch c9doc c2env "yes" false) = []) ∧
    replyBatch c9doc c2env " Y " false =
      executeItems c2env ((c9doc.get? "policy").getD (Json.mkObj []))
        (fingerprint c9doc) false
        [Json.mkObj [("comment_id", .num 5), ("body", .str "x")]] := by
  constructor
  · exact (confirmation_gate c9doc c2env "yes" _ rfl (Or.inl rfl)).1 (by decide)
  · exact (confirmation_gate c9doc c2env " Y " _ rfl (Or.inl rfl)).2 (by decide)

/-! ## C8 — validation and exit status -/

/-- A job whose `meta.pr` is present but not convertible by `int(...)`. -/
def c8doc : Json := Json.mkObj
  [("meta", Json.mkObj [("owner", .str "o"), ("repo", .str "r"), ("pr", .str "xyz")]),
   ("replies", Json.mkArr [Json.mkObj [("comment_id", .num 5), ("body", .str "x")]])]

/-- C8 (counterexample).  `c8doc` is missing none of `owner`, `repo`, `pr`
and its `replies` is a non-empty list, so the claim places it in the
"otherwise" branch and (with `fail_on_error` unset and no items run)
demands exit status 0; but `int(spec["meta"]["pr"])` raises on `"xyz"`,
so the run is rejected fatally with exit status 1. -/
theorem exit_contract_counterexample :
    ((c8doc.get? "meta").getD .null).get? "owner" = some (.str "o") ∧
    ((c8doc.get? "meta").getD .null).get? "repo" = some (.str "r") ∧
    ((c8doc.get? "meta").getD .null).get? "pr" = some (.str "xyz") ∧
    c8doc.get? "replies" =
      some (Json.mkArr [Json.mkObj [("comment_id", .num 5), ("body", .str "x")]]) ∧
    c8doc.get? "policy" = none ∧
    hadErrorOf (replyBatch c8doc c2env "y" false) = false ∧
    exitCodeOf (replyBatch c8doc c2env "y" false) = 1 :=
  ⟨rfl, rfl, rfl, rfl, rfl, rfl, rfl⟩

/-- A finished run's exit-1 flag is exactly `had_error and
policy.get("fail_on_error")`. -/
theorem replyBatch_finished_flag (doc : Json) (env : Env) (answer : String) (dry : Bool)
    (st : RunState) (b : Bool)
    (h : replyBatch doc env answer dry = .finished st b) :
    b = (st.hadError && foeOf ((doc.get? "policy").getD (Json.mkObj []))) := by
  unfold replyBatch at h
  cases hval : validateSpec doc with
  | error e => rw [hval] at h; exact absurd h (by simp)
  | ok v =>
    rw [hval] at h
    have hexec : ∀ (items : List Json),
        executeItems env ((doc.get? "policy").getD (Json.mkObj [])) (fingerprint doc)
            dry items = .finished st b →
        b = (st.hadError && foeOf ((doc.get? "policy").getD (Json.mkObj []))) := by
      intro items hx
      unfold executeItems at hx
      cases hrun : runItems env ((doc.get? "policy").getD (Json.mkObj []))
          (fingerprint doc) dry items ⟨false, [], []⟩ with
      | none => rw [hrun] at hx; exact absurd hx (by simp)
      | some st2 =>
        rw [hrun] at hx
        simp only [BatchOutcome.finished.injEq] at hx
        rw [← hx.1, ← hx.2]
        rfl
    simp only at h
    split at h
    · split at h
      · exact hexec _ h
      · exact absurd h (by simp)
    · exact hexec _ h

/-- C8 (amended).  A document failing the validation block — in particular
one missing `owner`, `repo` or `pr`, or whose (defaulted) `replies` is the
empty array or not an array, but also one whose present `pr` cannot be
converted by `int(...)` — is rejected fatally: exit status 1 and no
transport call at all.  A run that reaches the loop and finishes exits 1
iff an item recorded an error and `policy.fail_on_error` is truthy, and a
run aborted at the confirmation gate exits 0. -/
theorem exit_contract :
    (∀ (doc : Json) (env : Env) (answer : String) (dry : Bool) (e : String),
      validateSpec doc = .error e →
      replyBatch doc env answer dry = .invalidSpec e ∧
      exitCodeOf (replyBatch doc env answer dry) = 1 ∧
      eventsOf (replyBatch doc env answer dry) = []) ∧
    (∀ doc : Json,
      (doc.get? "meta" = none ∨
        (∃ meta, doc.get? "meta" = some meta ∧
          (meta.get? "owner" = none ∨ meta.get? "repo" = none ∨ meta.get? "pr" = none)) ∨
        (doc.get? "replies").getD (Json.mkArr []) = .arr .nil ∨
        (∀ xs : JsonArr, (doc.get? "replies").getD (Json.mkArr []) ≠ .arr xs)) →
      ∃ e, validateSpec doc = .error e) ∧
    (∀ (doc : Json) (env : Env) (answer : String) (dry : Bool) (st : RunState) (b : Bool),
      replyBatch doc env answer dry = .finished st b →
      (exitCodeOf (replyBatch doc env answer dry) = 1 ↔
        st.hadError = true ∧
          foeOf ((doc.get? "policy").getD (Json.mkObj [])) = true)) ∧
    (∀ (doc : Json) (env : Env) (answer : String) (dry : Bool),
      replyBatch doc env answer dry = .aborted →
      exitCodeOf (replyBatch doc env answer dry) = 0) := by
  refine ⟨?_, ?_, ?_, ?_⟩
  · intro doc env answer dry e hval
    have h : replyBatch doc env answer dry = .invalidSpec e := by
      unfold replyBatch
      rw [hval]
    exact ⟨h, by rw [h]; rfl, by rw [h]; rfl⟩
  · intro doc h
    unfold validateSpec
    cases hm : doc.get? "meta" with
    | none => exact ⟨_, rfl⟩
    | some meta =>
      dsimp only
      cases ho : meta.get? "owner" with
      | none => exact ⟨_, rfl⟩
      | some ow =>
        dsimp only
        cases hrp : meta.get? "repo" with
        | none => exact ⟨_, rfl⟩
        | some rp =>
          dsimp only
          cases hpr : meta.get? "pr" with
          | none => exact ⟨_, rfl⟩
          | some prv =>
            dsimp only
            cases hpi : pyInt prv with
            | error e => exact ⟨_, rfl⟩
            | ok prn =>
              dsimp only
              rcases h with h | h | h | h
              · rw [hm] at h; exact absurd h (by simp)
              · obtain ⟨meta2, hm2, hf⟩ := h
                rw [hm] at hm2
                injection hm2 with hm2
                subst hm2
                rcases hf with hf | hf | hf
                · rw [ho] at hf; exact absurd hf (by simp)
                · rw [hrp] at hf; exact absurd hf (by simp)
                · rw [hpr] at hf; exact absurd hf (by simp)
              · rw [h]
                exact ⟨_, rfl⟩
              · cases hv : (doc.get? "replies").getD (Json.mkArr []) with
                | arr xs => exact absurd hv (h xs)
                | null => exact ⟨_, rfl⟩
                | bool x => exact ⟨_, rfl⟩
                | num x => exact ⟨_, rfl⟩
                | str x => exact ⟨_, rfl⟩
                | obj x => exact ⟨_, rfl⟩
  · intro doc env answer dry st b h
    have hb := replyBatch_finished_flag doc env answer dry st b h
    rw [h, hb]
    cases hst : st.hadError <;>
      cases hfoe : foeOf ((doc.get? "policy").getD (Json.mkObj [])) <;>
        simp [exitCodeOf]
  · intro doc env answer dry h
    rw [h]
    rfl

/-- A one-item job with `fail_on_error: true` and no gate. -/
def c8errdoc : Json := Json.mkObj
  [("meta", Json.mkObj [("owner", .str "o"), ("repo", .str "r"), ("pr", .num 9)]),
   ("policy", Json.mkObj [("confirm", .bool false), ("fail_on_error", .bool true)]),
   ("replies", Json.mkArr [Json.mkObj [("comment_id", .num 5), ("body", .str "x")]])]

/-- An environment whose reply POST raises. -/
def c8errenv : Env := { c2env with postReply := fun _ _ => .error "boom" }

/-- Witness for `exit_contract` at concrete inputs: the `c8doc` rejection,
a missing-`owner` document, an empty-`replies` document, a finished run
with an error under `fail_on_error`, and an aborted run. -/
theorem exit_contract_witness :
    (replyBatch c8doc c2env "y" false = .invalidSpec "invalid literal for int()" ∧
      eventsOf (replyBatch c8doc c2env "y" false) = []) ∧
    (∃ e, validateSpec (Json.mkObj [("meta", Json.mkObj [("repo", .str "r")])]) = .error e) ∧
    (∃ e, validateSpec (Json.mkObj
      [("meta", Json.mkObj [("owner", .str "o"), ("repo", .str "r"), ("pr", .num 9)]),
       ("replies", Json.mkArr [])]) = .error e) ∧
    exitCodeOf (replyBatch c8errdoc c8errenv "" false) = 1 ∧
    exitCodeOf (replyBatch c9doc c2env "no" false) = 0 := by
  refine ⟨?_, ?_, ?_, ?_, ?_⟩
  · have h := exit_contract.1 c8doc c2env "y" false "invalid literal for int()" rfl
    exact ⟨h.1, h.2.2⟩
  · exact exit_contract.2.1 _ (Or.inr (Or.inl ⟨_, rfl, Or.inl rfl⟩))
  · exact exit_contract.2.1 _ (Or.inr (Or.inr (Or.inl rfl)))
  · exact (exit_contract.2.2.1 c8errdoc c8errenv "" false
      ⟨true, [.replyErr 5 "boom"],
       [.listComments, .postReply 5 ("x\n\n" ++ marker (fingerprint c8errdoc) 5)]⟩
      true rfl).mpr ⟨rfl, rfl⟩
  · exact exit_contract.2.2.2 c9doc c2env "no" false (by decide)

/-! ## C4 — fail-fast semantics -/

theorem seqSteps_no_brk {r1 : ItemResult} (r2 : ItemResult) (h1 : r1.brk = false) :
    seqSteps r1 r2 =
      ⟨r1.reports ++ r2.reports, r1.events ++ r2.events, r1.errored || r2.errored, r2.brk⟩ := by
  unfold seqSteps
  rw [h1]
  simp

theorem seqSteps_of_brk {r1 : ItemResult} (r2 : ItemResult) (h1 : r1.brk = true) :
    seqSteps r1 r2 = r1 := by
  unfold seqSteps
  rw [h1]
  simp

/-- The three mutation steps of one item, in source order. -/
def itemSteps (env : Env) (policy : Json) (fp : String) (dry : Bool)
    (pid : Int) (b : String) (item : Json) : ItemResult :=
  seqSteps (replyStep env dry (foeOf policy) pid (b ++ "\n\n" ++ marker fp pid))
    (seqSteps (reactStep env dry (foeOf policy) pid (effReact item policy))
      (resolveStep env dry (foeOf policy) pid (effResolve item policy)))

/-- An item that passes reference resolution, body extraction and a
marker-free scan runs the three steps in sequence. -/
theorem runItem_steps (env : Env) (policy : Json) (fp : String) (dry : Bool)
    (item : Json) (pid : Int) (b : String) (cs : List RemoteComment)
    (hparse : parseCommentRef item = .ok pid)
    (hbody : bodyStr? item = some b)
    (hcs : env.comments = .ok cs)
    (halready : alreadyReplied cs pid fp = false) :
    runItem env policy fp dry item =
      some ⟨(itemSteps env policy fp dry pid b item).reports,
        .listComments :: (itemSteps env policy fp dry pid b item).events,
        (itemSteps env policy fp dry pid b item).errored,
        (itemSteps env policy fp dry pid b item).brk⟩ := by
  unfold runItem
  rw [hparse]
  dsimp only
  rw [hbody]
  dsimp only
  rw [hcs]
  dsimp only
  rw [halready]
  rfl

/-- The reaction step always records its POST, whatever the response. -/
theorem reactStep_events (env : Env) (foe : Bool) (pid : Int) (react : Option Json)
    (htr : optTruthy react = true) :
    (reactStep env false foe pid react).events = [.addReaction pid (react.getD .null)] := by
  unfold reactStep
  rw [if_pos htr]
  simp only [Bool.false_eq_true, if_false]
  split
  · rfl
  · split <;> rfl
  · rfl

/-- When the resolve step runs (resolve wanted, not a dry run), its first
transport call — the comment fetch — is always made, whatever the
environment answers afterwards. -/
theorem resolveStep_fetch_mem (env : Env) (foe : Bool) (pid : Int) :
    CallEvent.fetchComment pid ∈ (resolveStep env false foe pid true).events := by
  cases hf : env.fetchComment pid with
  | error e => simp [resolveStep, hf]
  | ok nodeId =>
    cases ht : env.fetchThread nodeId with
    | error e => simp [resolveStep, hf, ht]
    | ok ti =>
      by_cases hres : ti.2 = true
      · simp [resolveStep, hf, ht, hres]
      · cases hr : env.resolveThread ti.1 with
        | ok u => simp [resolveStep, hf, ht, hres, hr]
        | error e => simp [resolveStep, hf, ht, hres, hr]

/-- C4.  With `fail_on_error` falsy the loop never breaks: (crashes aside)
every item is folded in order, and a reply-posting error still attempts
the same item's reaction step (the reaction POST is made when a reaction
is set) and resolve step (the resolve block's comment fetch is made when
resolve is wanted).  With `fail_on_error` truthy, an item that records an
error always breaks the loop, a broken iteration ends the run with later
items never attempted, and an error stops mid-item: after a reply-posting
error the item performs no reaction or resolve call, and after a reaction
error it performs no resolve call even when resolve is wanted. -/
theorem fail_fast_semantics :
    (∀ (env : Env) (policy : Json) (fp : String) (dry : Bool) (items : List Json)
        (st : RunState),
      foeOf policy = false →
      (∀ it ∈ items, (runItem env policy fp dry it).isSome = true) →
      runItems env policy fp dry items st =
        some (items.foldl (fun s it => mergeState s (runItemD env policy fp dry it)) st)) ∧
    (∀ (env : Env) (policy : Json) (fp : String) (item : Json) (pid : Int) (b : String)
        (cs : List RemoteComment) (rv : Json) (e : String),
      foeOf policy = false →
      parseCommentRef item = .ok pid →
      bodyStr? item = some b →
      env.comments = .ok cs →
      alreadyReplied cs pid fp = false →
      env.postReply pid (b ++ "\n\n" ++ marker fp pid) = .error e →
      effReact item policy = some rv → rv.truthy = true →
      ∃ r, runItem env policy fp false item = some r ∧ r.errored = true ∧ r.brk = false ∧
        CallEvent.addReaction pid rv ∈ r.events) ∧
    (∀ (env : Env) (policy : Json) (fp : String) (item : Json) (pid : Int) (b : String)
        (cs : List RemoteComment) (e : String),
      foeOf policy = false →
      parseCommentRef item = .ok pid →
      bodyStr? item = some b →
      env.comments = .ok cs →
      alreadyReplied cs pid fp = false →
      env.postReply pid (b ++ "\n\n" ++ marker fp pid) = .error e →
      effResolve item policy = true →
      ∃ r, runItem env policy fp false item = some r ∧ r.errored = true ∧ r.brk = false ∧
        CallEvent.fetchComment pid ∈ r.events) ∧
    (∀ (env : Env) (policy : Json) (fp : String) (dry : Bool) (item : Json) (r : ItemResult),
      foeOf policy = true →
      runItem env policy fp dry item = some r →
      r.brk = r.errored) ∧
    (∀ (env : Env) (policy : Json) (fp : String) (dry : Bool) (item : Json)
        (rest : List Json) (st : RunState) (r : ItemResult),
      runItem env policy fp dry item = some r → r.brk = true →
      runItems env policy fp dry (item :: rest) st = some (mergeState st r)) ∧
    (∀ (env : Env) (policy : Json) (fp : String) (item : Json) (pid : Int) (b : String)
        (cs : List RemoteComment) (e : String),
      foeOf policy = true →
      parseCommentRef item = .ok pid →
      bodyStr? item = some b →
      env.comments = .ok cs →
      alreadyReplied cs pid fp = false →
      env.postReply pid (b ++ "\n\n" ++ marker fp pid) = .error e →
      runItem env policy fp false item =
        some ⟨[.replyErr pid e],
          [.listComments, .postReply pid (b ++ "\n\n" ++ marker fp pid)], true, true⟩) ∧
    (∀ (env : Env) (policy : Json) (fp : String) (item : Json) (pid : Int) (b : String)
        (cs : List RemoteComment) (rv : Json) (nid : Option Int) (s : Nat),
      foeOf policy = true →
      parseCommentRef item = .ok pid →
      bodyStr? item = some b →
      env.comments = .ok cs →
      alreadyReplied cs pid fp = false →
      env.postReply pid (b ++ "\n\n" ++ marker fp pid) = .ok nid →
      effReact item policy = some rv → rv.truthy = true →
      env.reactResult pid rv = .ok s → 400 ≤ s → s < 600 → ¬(s = 200 ∨ s = 201 ∨ s = 422) →
      effResolve item policy = true →
      runItem env policy fp false item =
        some ⟨[.replyOk pid nid, .reactErr pid (toString s)],
          [.listComments, .postReply pid (b ++ "\n\n" ++ marker fp pid),
           .addReaction pid rv], true, true⟩) := by
  refine ⟨?_, ?_, ?_, ?_, ?_, ?_, ?_⟩
  · intro env policy fp dry items st hfoe hall
    exact runItems_all env policy fp dry hfoe items st hall
  · intro env policy fp item pid b cs rv e hfoe hparse hbody hcs halready hpost hreact htr
    have h1 : replyStep env false (foeOf policy) pid (b ++ "\n\n" ++ marker fp pid) =
        ⟨[.replyErr pid e], [.postReply pid (b ++ "\n\n" ++ marker fp pid)], true, false⟩ := by
      unfold replyStep
      rw [hpost, hfoe]
      simp
    have h2brk : (reactStep env false (foeOf policy) pid (some rv)).brk = false := by
      rw [reactStep_brk, hfoe, Bool.and_false]
    have h3brk : (resolveStep env false (foeOf policy) pid (effResolve item policy)).brk =
        false := by
      rw [resolveStep_brk, hfoe, Bool.and_false]
    have hre : (reactStep env false (foeOf policy) pid (some rv)).events =
        [.addReaction pid rv] :=
      reactStep_events env (foeOf policy) pid (some rv) htr
    refine ⟨_, runItem_steps env policy fp false item pid b cs hparse hbody hcs halready,
      ?_, ?_, ?_⟩
    · simp [itemSteps, seqSteps, h1, hreact, h2brk]
    · simp [itemSteps, seqSteps, h1, hreact, h2brk, h3brk]
    · simp [itemSteps, seqSteps, h1, hreact, h2brk, hre]
  · intro env policy fp item pid b cs e hfoe hparse hbody hcs halready hpost hres
    have h1 : replyStep env false (foeOf policy) pid (b ++ "\n\n" ++ marker fp pid) =
        ⟨[.replyErr pid e], [.postReply pid (b ++ "\n\n" ++ marker fp pid)], true, false⟩ := by
      unfold replyStep
      rw [hpost, hfoe]
      simp
    have h2brk : (reactStep env false (foeOf policy) pid (effReact item policy)).brk =
        false := by
      rw [reactStep_brk, hfoe, Bool.and_false]
    have h3brk : (resolveStep env false (foeOf policy) pid true).brk = false := by
      rw [resolveStep_brk, hfoe, Bool.and_false]
    have hmem := resolveStep_fetch_mem env (foeOf policy) pid
    refine ⟨_, runItem_steps env policy fp false item pid b cs hparse hbody hcs halready,
      ?_, ?_, ?_⟩
    · simp [itemSteps, seqSteps, h1, hres, h2brk]
    · simp [itemSteps, seqSteps, h1, hres, h2brk, h3brk]
    · simp [itemSteps, seqSteps, h1, hres, h2brk, List.mem_append, hmem]
  · intro env policy fp dry item r hfoe h
    rw [runItem_brk env policy fp dry item r h, hfoe, Bool.and_true]
  · exact runItems_break
  · intro env policy fp item pid b cs e hfoe hparse hbody hcs halready hpost
    rw [runItem_steps env policy fp false item pid b cs hparse hbody hcs halready]
    have h1 : replyStep env false (foeOf policy) pid (b ++ "\n\n" ++ marker fp pid) =
        ⟨[.replyErr pid e], [.postReply pid (b ++ "\n\n" ++ marker fp pid)], true, true⟩ := by
      unfold replyStep
      rw [hpost, hfoe]
      simp
    simp [itemSteps, seqSteps, h1]
  · intro env policy fp item pid b cs rv nid s hfoe hparse hbody hcs halready hpost
      hreact htr hs h4 h6 hnot hres
    have h1 : replyStep env false (foeOf policy) pid (b ++ "\n\n" ++ marker fp pid) =
        ⟨[.replyOk pid nid], [.postReply pid (b ++ "\n\n" ++ marker fp pid)],
          false, false⟩ := by
      unfold replyStep
      rw [hpost]
      simp
    have hcall : reactToReviewComment env pid rv = .error (.httpError s) :=
      reactCall_raises env pid rv s hs h4 h6 hnot
    have h422 : s ≠ 422 := fun h => hnot (Or.inr (Or.inr h))
    have h2 : reactStep env false (foeOf policy) pid (some rv) =
        ⟨[.reactErr pid (toString s)], [.addReaction pid rv], true, foeOf policy⟩ := by
      simp [reactStep, optTruthy, htr, hcall, h422]
    rw [runItem_steps env policy fp false item pid b cs hparse hbody hcs halready]
    rw [hfoe] at h1 h2
    simp [itemSteps, seqSteps, h1, hreact, h2, hfoe]

/-- Policy with `fail_on_error: true`, for the fail-fast witness. -/
def c4polF : Json := Json.mkObj [("confirm", .bool false), ("fail_on_error", .bool true)]

/-- A reply item with a reaction, for the fail-fast witness. -/
def c4item : Json := Json.mkObj [("comment_id", .num 5), ("body", .str "x"), ("react", .str "+1")]

/-- A reply item with no reaction but a wanted resolve. -/
def c4itemR : Json :=
  Json.mkObj [("comment_id", .num 5), ("body", .str "x"), ("resolve", .bool true)]

/-- A reply item with both a reaction and a wanted resolve. -/
def c4itemRR : Json := Json.mkObj
  [("comment_id", .num 5), ("body", .str "x"), ("react", .str "+1"), ("resolve", .bool true)]

/-- An environment whose reaction POST returns HTTP 500. -/
def c4envReact500 : Env := { c2env with reactResult := fun _ _ => .ok 500 }

/-- Witness for `fail_fast_semantics` at concrete inputs: a reply-POST
error without fail-fast still reacting and still fetching for resolve
(also for an item with no reaction at all), the fail-fast stop at the
reply step, and the fail-fast stop at a failed reaction with the wanted
resolve never fetched. -/
theorem fail_fast_semantics_witness :
    runItems c8errenv (Json.mkObj []) "fp" false [c4item] ⟨false, [], []⟩ =
      some ([c4item].foldl
        (fun s it => mergeState s (runItemD c8errenv (Json.mkObj []) "fp" false it))
        ⟨false, [], []⟩) ∧
    (∃ r, runItem c8errenv (Json.mkObj []) "fp" false c4item = some r ∧ r.errored = true ∧
      r.brk = false ∧ CallEvent.addReaction 5 (.str "+1") ∈ r.events) ∧
    (∃ r, runItem c8errenv (Json.mkObj []) "fp" false c4itemR = some r ∧ r.errored = true ∧
      r.brk = false ∧ CallEvent.fetchComment 5 ∈ r.events) ∧
    runItem c8errenv c4polF "fp" false c4item =
      some ⟨[.replyErr 5 "boom"],
        [.listComments, .postReply 5 ("x\n\n" ++ marker "fp" 5)], true, true⟩ ∧
    runItems c8errenv c4polF "fp" false [c4item, c4item] ⟨false, [], []⟩ =
      some (mergeState ⟨false, [], []⟩
        ⟨[.replyErr 5 "boom"],
         [.listComments, .postReply 5 ("x\n\n" ++ marker "fp" 5)], true, true⟩) ∧
    runItem c4envReact500 c4polF "fp" false c4itemRR =
      some ⟨[.replyOk 5 (some 9), .reactErr 5 (toString (500 : Nat))],
        [.listComments, .postReply 5 ("x\n\n" ++ marker "fp" 5),
         .addReaction 5 (.str "+1")], true, true⟩ := by
  refine ⟨?_, ?_, ?_, ?_, ?_, ?_⟩
  · exact fail_fast_semantics.1 c8errenv (Json.mkObj []) "fp" false [c4item] ⟨false, [], []⟩
      rfl (by decide)
  · exact fail_fast_semantics.2.1 c8errenv (Json.mkObj []) "fp" c4item 5 "x" [] (.str "+1")
      "boom" rfl rfl rfl rfl rfl rfl rfl (by decide)
  · exact fail_fast_semantics.2.2.1 c8errenv (Json.mkObj []) "fp" c4itemR 5 "x" []
      "boom" rfl rfl rfl rfl rfl rfl rfl
  · exact fail_fast_semantics.2.2.2.2.2.1 c8errenv c4polF "fp" c4item 5 "x" [] "boom"
      rfl rfl rfl rfl rfl rfl
  · exact fail_fast_semantics.2.2.2.2.1 c8errenv c4polF "fp" false c4item [c4item]
      ⟨false, [], []⟩ _
      (fail_fast_semantics.2.2.2.2.2.1 c8errenv c4polF "fp" c4item 5 "x" [] "boom"
        rfl rfl rfl rfl rfl rfl) rfl
  · exact fail_fast_semantics.2.2.2.2.2.2 c4envReact500 c4polF "fp" c4itemRR 5 "x" []
      (.str "+1") (some 9) 500 rfl rfl rfl rfl rfl rfl rfl (by decide) rfl (by decide)
      (by decide) (by decide) rfl

/-! ## C5 — dry-run purity -/

/-- In dry mode the three steps print their `DRY RUN` lines and call
nothing, whatever the policy and environment. -/
theorem steps_dry (env : Env) (foe : Bool) (pid : Int) (body : String)
    (react : Option Json) (want : Bool) :
    seqSteps (replyStep env true foe pid body)
      (seqSteps (reactStep env true foe pid react) (resolveStep env true foe pid want)) =
      ⟨.replyDry pid :: ((if optTruthy react then [.reactDry pid] else []) ++
        (if want then [.resolveDry pid] else [])), [], false, false⟩ := by
  by_cases h1 : optTruthy react = true <;> by_cases h2 : want = true <;>
    simp_all [seqSteps, replyStep, reactStep, resolveStep]

/-- A dry-run iteration only ever reads, and prints only pre-mutation
failure lines, skips, or `DRY RUN` lines. -/
theorem runItem_dry (env : Env) (policy : Json) (fp : String) (item : Json) (r : ItemResult)
    (h : runItem env policy fp true item = some r) :
    (∀ e ∈ r.events, e = CallEvent.listComments) ∧ (∀ l ∈ r.reports, dryReport l = true) := by
  unfold runItem at h
  simp only at h
  split at h
  · cases h
    exact ⟨by intro e he; simp at he, by intro l hl; simp at hl; subst hl; rfl⟩
  · split at h
    · exact absurd h (by simp)
    · split at h
      · cases h
        exact ⟨by intro e he; simp at he; subst he; rfl,
          by intro l hl; simp at hl; subst hl; rfl⟩
      · split at h
        · cases h
          exact ⟨by intro e he; simp at he; subst he; rfl,
            by intro l hl; simp at hl; subst hl; rfl⟩
        · rw [steps_dry] at h
          cases h
          constructor
          · intro e he
            simp at he
            exact he
          · intro l hl
            simp only [List.mem_cons, List.mem_append] at hl
            rcases hl with hl | hl
            · subst hl; rfl
            · rcases hl with hl | hl
              · split at hl
                · simp at hl; subst hl; rfl
                · simp at hl
              · split at hl
                · simp at hl; subst hl; rfl
                · simp at hl

/-- Dry-run purity is preserved along the loop. -/
theorem runItems_dry (env : Env) (policy : Json) (fp : String) :
    ∀ (items : List Json) (st st' : RunState),
      runItems env policy fp true items st = some st' →
      (∀ e ∈ st.events, e = CallEvent.listComments) →
      (∀ l ∈ st.reports, dryReport l = true) →
      (∀ e ∈ st'.events, e = CallEvent.listComments) ∧
        (∀ l ∈ st'.reports, dryReport l = true) := by
  intro items
  induction items with
  | nil =>
    intro st st' h he hl
    unfold runItems at h
    simp only [Option.some.injEq] at h
    subst h
    exact ⟨he, hl⟩
  | cons it rest ih =>
    intro st st' h he hl
    unfold runItems at h
    cases hri : runItem env policy fp true it with
    | none => rw [hri] at h; exact absurd h (by simp)
    | some r =>
      rw [hri] at h
      dsimp only at h
      obtain ⟨hre, hrl⟩ := runItem_dry env policy fp it r hri
      have hme : ∀ e ∈ (mergeState st r).events, e = CallEvent.listComments := by
        intro e hee
        simp only [mergeState, List.mem_append] at hee
        rcases hee with hee | hee
        · exact he e hee
        · exact hre e hee
      have hml : ∀ l ∈ (mergeState st r).reports, dryReport l = true := by
        intro l hll
        simp only [mergeState, List.mem_append] at hll
        rcases hll with hll | hll
        · exact hl l hll
        · exact hrl l hll
      by_cases hb : r.brk = true
      · rw [if_pos hb] at h
        simp only [Option.some.injEq] at h
        subst h
        exact ⟨hme, hml⟩
      · rw [if_neg hb] at h
        exact ih (mergeState st r) st' h hme hml

/-- C5.  Under `--dry-run` a finished run's transport calls are all
idempotency-scan reads — no reply POST, no reaction POST, no comment
fetch, no thread lookup, no resolve mutation — and every line printed is
a pre-mutation failure, a skip, or a `DRY RUN` line; an item that reaches
the mutation steps prints one `DRY RUN` line per suppressed mutation. -/
theorem dry_run_purity :
    (∀ (doc : Json) (env : Env) (answer : String) (st : RunState) (b : Bool),
      replyBatch doc env answer true = .finished st b →
      (∀ e ∈ st.events, e = CallEvent.listComments) ∧
        (∀ l ∈ st.reports, dryReport l = true)) ∧
    (∀ (env : Env) (policy : Json) (fp : String) (item : Json) (pid : Int) (b : String)
        (cs : List RemoteComment),
      parseCommentRef item = .ok pid → bodyStr? item = some b →
      env.comments = .ok cs → alreadyReplied cs pid fp = false →
      runItem env policy fp true item = some
        ⟨.replyDry pid :: ((if optTruthy (effReact item policy) then [.reactDry pid] else []) ++
          (if effResolve item policy then [.resolveDry pid] else [])),
         [.listComments], false, false⟩) := by
  constructor
  · intro doc env answer st b h
    unfold replyBatch at h
    cases hval : validateSpec doc with
    | error e => rw [hval] at h; exact absurd h (by simp)
    | ok v =>
      rw [hval] at h
      simp only [Bool.not_true, Bool.and_false, Bool.false_eq_true, if_false] at h
      unfold executeItems at h
      cases hrun : runItems env ((doc.get? "policy").getD (Json.mkObj []))
          (fingerprint doc) true v.2.2.2 ⟨false, [], []⟩ with
      | none => rw [hrun] at h; exact absurd h (by simp)
      | some st2 =>
        rw [hrun] at h
        simp only [BatchOutcome.finished.injEq] at h
        obtain ⟨h1, _⟩ := h
        subst h1
        exact runItems_dry env _ _ v.2.2.2 ⟨false, [], []⟩ st2 hrun
          (by intro e he; simp at he) (by intro l hl; simp at hl)
  · intro env policy fp item pid b cs hparse hbody hcs halready
    rw [runItem_steps env policy fp true item pid b cs hparse hbody hcs halready]
    have hX : itemSteps env policy fp true pid b item =
        ⟨.replyDry pid :: ((if optTruthy (effReact item policy) then [.reactDry pid] else []) ++
          (if effResolve item policy then [.resolveDry pid] else [])), [], false, false⟩ :=
      steps_dry env (foeOf policy) pid (b ++ "\n\n" ++ marker fp pid)
        (effReact item policy) (effResolve item policy)
    rw [hX]

/-- Witness for `dry_run_purity`: a concrete dry run whose trace is a
single scan and whose output is `DRY RUN` lines. -/
theorem dry_run_purity_witness :
    (∀ e ∈ ([CallEvent.listComments] : List CallEvent), e = CallEvent.listComments) ∧
    (∀ l ∈ ([ReportLine.replyDry 5, ReportLine.reactDry 5] : List ReportLine),
      dryReport l = true) ∧
    runItem c2env (Json.mkObj []) "fp" true c4item =
      some ⟨[.replyDry 5, .reactDry 5], [.listComments], false, false⟩ := by
  refine ⟨?_, ?_, ?_⟩
  · exact (dry_run_purity.1 c2doc c2env "" ⟨false, [.replyDry 5, .reactDry 5],
      [.listComments]⟩ false rfl).1
  · exact (dry_run_purity.1 c2doc c2env "" ⟨false, [.replyDry 5, .reactDry 5],
      [.listComments]⟩ false rfl).2
  · have h := dry_run_purity.2 c2env (Json.mkObj []) "fp" c4item 5 "x" [] rfl rfl rfl rfl
    simpa using h

/-! ## C1 — batch idempotency -/

/-- A direct reply to `parentId` whose body contains the marker makes the
scan report the pair as already handled. -/
theorem alreadyReplied_of_mem (cs : List RemoteComment) (pid : Int) (fp : String)
    (c : RemoteComment) (hc : c ∈ cs) (hr : c.in_reply_to_id = some pid)
    (hm : (marker fp pid).data <:+: (c.body.getD "").data) :
    alreadyReplied cs pid fp = true := by
  unfold alreadyReplied
  rw [List.any_eq_true]
  exact ⟨c, hc, by simp [hr, hm]⟩

/-- An item whose marker is found is reported as skipped, after a single
read, with no error and no break. -/
theorem runItem_skip (env : Env) (policy : Json) (fp : String) (dry : Bool)
    (item : Json) (pid : Int) (b : String) (cs : List RemoteComment)
    (hparse : parseCommentRef item = .ok pid)
    (hbody : bodyStr? item = some b)
    (hcs : env.comments = .ok cs)
    (halready : alreadyReplied cs pid fp = true) :
    runItem env policy fp dry item = some ⟨[.skipped pid], [.listComments], false, false⟩ := by
  unfold runItem
  rw [hparse]
  dsimp only
  rw [hbody]
  dsimp only
  rw [hcs]
  dsimp only
  rw [halready]
  rfl

/-- A loop over items that are all already handled produces one skip line
and one scan per item, and nothing else. -/
theorem runItems_skip (env : Env) (policy : Json) (fp : String) (dry : Bool)
    (cs : List RemoteComment) (hcs : env.comments = .ok cs) :
    ∀ (items : List Json) (st : RunState),
      (∀ it ∈ items, ∃ pid, parseCommentRef it = .ok pid ∧ (bodyStr? it).isSome = true ∧
        alreadyReplied cs pid fp = true) →
      ∃ pids : List Int,
        runItems env policy fp dry items st =
          some ⟨st.hadError, st.reports ++ pids.map ReportLine.skipped,
            st.events ++ items.map (fun _ => CallEvent.listComments)⟩ ∧
        pids.length = items.length := by
  intro items
  induction items with
  | nil =>
    intro st _
    exact ⟨[], by simp [runItems], rfl⟩
  | cons it rest ih =>
    intro st h
    obtain ⟨pid, hp, hbs, ha⟩ := h it (by simp)
    obtain ⟨b, hb⟩ := Option.isSome_iff_exists.mp hbs
    have hri := runItem_skip env policy fp dry it pid b cs hp hb hcs ha
    obtain ⟨pids, hrun, hlen⟩ :=
      ih (mergeState st ⟨[.skipped pid], [.listComments], false, false⟩)
        (fun x hx => h x (by simp [hx]))
    refine ⟨pid :: pids, ?_, by simp [hlen]⟩
    unfold runItems
    rw [hri]
    dsimp only
    rw [hrun]
    simp [mergeState, List.append_assoc]

/-- C1.  Re-running a job against a thread state that already contains, for
every item, a direct reply to that item's parent carrying the marker for
the job's fingerprint: the run finishes cleanly (exit flag clear, no error
recorded), performs only idempotency-scan reads — zero reply posts, zero
reactions, zero comment fetches or resolve mutations — and prints exactly
one `skipped` line per item. -/
theorem batch_idempotency (doc : Json) (env : Env) (answer : String) (dry : Bool)
    (ow rp : Json) (pr : Int) (items : List Json) (cs : List RemoteComment)
    (hval : validateSpec doc = .ok (ow, rp, pr, items))
    (hgate : pyLower (pyStrip answer) = "y")
    (hcs : env.comments = .ok cs)
    (hitems : ∀ it ∈ items, ∃ pid, parseCommentRef it = .ok pid ∧
      (bodyStr? it).isSome = true ∧
      ∃ c ∈ cs, c.in_reply_to_id = some pid ∧
        (marker (fingerprint doc) pid).data <:+: (c.body.getD "").data) :
    ∃ st : RunState,
      replyBatch doc env answer dry = .finished st false ∧
      st.hadError = false ∧
      (∀ e ∈ st.events, e = CallEvent.listComments) ∧
      (∀ l ∈ st.reports, ∃ pid, l = ReportLine.skipped pid) ∧
      st.reports.length = items.length := by
  have hitems2 : ∀ it ∈ items, ∃ pid, parseCommentRef it = .ok pid ∧
      (bodyStr? it).isSome = true ∧ alreadyReplied cs pid (fingerprint doc) = true := by
    intro it hit
    obtain ⟨pid, hp, hbs, c, hcmem, hrid, hinf⟩ := hitems it hit
    exact ⟨pid, hp, hbs, alreadyReplied_of_mem cs pid _ c hcmem hrid hinf⟩
  obtain ⟨pids, hrun, hlen⟩ := runItems_skip env ((doc.get? "policy").getD (Json.mkObj []))
    (fingerprint doc) dry cs hcs items ⟨false, [], []⟩ hitems2
  have hexec : executeItems env ((doc.get? "policy").getD (Json.mkObj []))
      (fingerprint doc) dry items =
      .finished ⟨false, pids.map ReportLine.skipped,
        items.map (fun _ => CallEvent.listComments)⟩ false := by
    unfold executeItems
    rw [hrun]
    simp
  have hbatch : replyBatch doc env answer dry =
      .finished ⟨false, pids.map ReportLine.skipped,
        items.map (fun _ => CallEvent.listComments)⟩ false := by
    unfold replyBatch
    rw [hval]
    dsimp only
    by_cases hc : (confirmRequired ((doc.get? "policy").getD (Json.mkObj [])) && !dry) = true
    · rw [if_pos hc, if_pos hgate]
      exact hexec
    · rw [if_neg hc]
      exact hexec
  refine ⟨_, hbatch, rfl, ?_, ?_, ?_⟩
  · intro e he
    simp only [List.mem_map] at he
    obtain ⟨x, _, hx⟩ := he
    exact hx.symm
  · intro l hl
    simp only [List.mem_map] at hl
    obtain ⟨x, _, hx⟩ := hl
    exact ⟨x, hx.symm⟩
  · simp [hlen]

/-- Remote state holding the first run's marker reply for `c2doc`. -/
def c1env : Env :=
  { c2env with comments := .ok [⟨some 5, some (marker (fingerprint c2doc) 5)⟩] }

/-- Witness for `batch_idempotency`: the one-item job `c2doc` re-run
against a thread already carrying its marker. -/
theorem batch_idempotency_witness :
    ∃ st : RunState,
      replyBatch c2doc c1env "y" false = .finished st false ∧
      st.hadError = false ∧
      (∀ e ∈ st.events, e = CallEvent.listComments) ∧
      (∀ l ∈ st.reports, ∃ pid, l = ReportLine.skipped pid) ∧
      st.reports.length = 1 := by
  have h := batch_idempotency c2doc c1env "y" false (.str "o") (.str "r") 9
    [Json.mkObj [("comment_id", .num 5), ("body", .str "x"), ("react", .str "+1")]]
    [⟨some 5, some (marker (fingerprint c2doc) 5)⟩]
    rfl (by decide) rfl
    (by
      intro it hit
      simp only [List.mem_singleton] at hit
      subst hit
      exact ⟨5, rfl, rfl, ⟨some 5, some (marker (fingerprint c2doc) 5)⟩, by simp, rfl,
        List.infix_rfl⟩)
  simpa using h

/-! ## C6 — fingerprint stability

"Same content up to key ordering" is the recursive relation `JEquiv`:
equal scalars, pointwise-equivalent arrays, and objects whose entry lists
are permutations with equal keys and equivalent values.  Well-formedness
(`jsonWF`) asks every object's keys to be distinct, which is guaranteed
for anything `json.load` produces. -/

theorem char_eq_of_toNat_eq {a b : Char} (h : a.toNat = b.toNat) : a = b := by
  apply Char.eq_of_val_eq
  apply UInt32.ext
  exact h

theorem strLeB_total : ∀ a b : List Char, strLeB a b = true ∨ strLeB b a = true
  | [], _ => Or.inl rfl
  | _ :: _, [] => Or.inr rfl
  | a :: as, b :: bs => by
    by_cases h1 : a.toNat < b.toNat
    · left
      simp [strLeB, h1]
    · by_cases h2 : b.toNat < a.toNat
      · right
        simp [strLeB, h2]
      · rcases strLeB_total as bs with h | h
        · left
          simp [strLeB, h1, h2, h]
        · right
          simp [strLeB, h1, h2, h]

theorem strLeB_trans : ∀ a b c : List Char,
    strLeB a b = true → strLeB b c = true → strLeB a c = true
  | [], _, _, _, _ => rfl
  | _ :: _, [], _, hab, _ => by simp [strLeB] at hab
  | _ :: _, _ :: _, [], _, hbc => by simp [strLeB] at hbc
  | a :: as, b :: bs, c :: cs, hab, hbc => by
    by_cases h1 : a.toNat < b.toNat
    · by_cases h3 : b.toNat < c.toNat
      · have h5 : a.toNat < c.toNat := by omega
        simp [strLeB, h5]
      · by_cases h4 : c.toNat < b.toNat
        · simp [strLeB, h3, h4] at hbc
        · have h5 : a.toNat < c.toNat := by omega
          simp [strLeB, h5]
    · by_cases h2 : b.toNat < a.toNat
      · simp [strLeB, h1, h2] at hab
      · simp only [strLeB, if_neg h1, if_neg h2] at hab
        by_cases h3 : b.toNat < c.toNat
        · have h5 : a.toNat < c.toNat := by omega
          simp [strLeB, h5]
        · by_cases h4 : c.toNat < b.toNat
          · simp [strLeB, h3, h4] at hbc
          · simp only [strLeB, if_neg h3, if_neg h4] at hbc
            have h5 : ¬a.toNat < c.toNat := by omega
            have h6 : ¬c.toNat < a.toNat := by omega
            simp only [strLeB, if_neg h5, if_neg h6]
            exact strLeB_trans as bs cs hab hbc

theorem strLeB_antisymm : ∀ a b : List Char,
    strLeB a b = true → strLeB b a = true → a = b
  | [], [], _, _ => rfl
  | [], _ :: _, _, h => by simp [strLeB] at h
  | _ :: _, [], h, _ => by simp [strLeB] at h
  | a :: as, b :: bs, h1, h2 => by
    by_cases hab : a.toNat < b.toNat
    · have : ¬b.toNat < a.toNat := by omega
      simp [strLeB, hab, this] at h2
    · by_cases hba : b.toNat < a.toNat
      · simp [strLeB, hab, hba] at h1
      · have heq : a = b := char_eq_of_toNat_eq (by omega)
        subst heq
        simp only [strLeB, hab, if_neg, ite_self] at h1 h2
        rw [strLeB_antisymm as bs (by simpa using h1) (by simpa using h2)]

theorem str_eq_of_data_eq {s t : String} (h : s.data = t.data) : s = t := by
  cases s
  cases t
  exact congrArg String.mk h

instance : IsTotal (String × Json) keyLE := ⟨fun a b => strLeB_total a.1.data b.1.data⟩

instance : IsTrans (String × Json) keyLE :=
  ⟨fun a b c h1 h2 => strLeB_trans a.1.data b.1.data c.1.data h1 h2⟩

/-- Strict key order, used only to show sorted permutations coincide. -/
def keyLT (a b : String × Json) : Prop := keyLE a b ∧ a.1 ≠ b.1

instance : IsAntisymm (String × Json) keyLT :=
  ⟨fun a b h1 h2 =>
    absurd (str_eq_of_data_eq (strLeB_antisymm a.1.data b.1.data h1.1 h2.1)) h1.2⟩

theorem sortKVs_sorted (l : List (String × Json)) : (sortKVs l).Sorted keyLE :=
  List.sorted_insertionSort keyLE l

theorem sortKVs_perm (l : List (String × Json)) : List.Perm (sortKVs l) l :=
  List.perm_insertionSort keyLE l

theorem pairwise_combine {α : Type} {R S : α → α → Prop} :
    ∀ {l : List α}, l.Pairwise R → l.Pairwise S → l.Pairwise fun a b => R a b ∧ S a b := by
  intro l
  induction l with
  | nil => intro _ _; exact List.Pairwise.nil
  | cons a t ih =>
    intro h1 h2
    rw [List.pairwise_cons] at h1 h2 ⊢
    exact ⟨fun b hb => ⟨h1.1 b hb, h2.1 b hb⟩, ih h1.2 h2.2⟩

theorem sorted_strict_of_nodup {l : List (String × Json)}
    (hs : l.Sorted keyLE) (hnd : (l.map Prod.fst).Nodup) : l.Sorted keyLT := by
  have hne : l.Pairwise fun a b : String × Json => a.1 ≠ b.1 := by
    rw [List.Nodup, List.pairwise_map] at hnd
    exact hnd
  exact pairwise_combine hs hne

/-- Two permuted entry lists with (shared) distinct keys sort identically. -/
theorem sortKVs_eq_of_perm (l1 l2 : List (String × Json)) (hp : List.Perm l1 l2)
    (hnd : (l1.map Prod.fst).Nodup) : sortKVs l1 = sortKVs l2 := by
  have hperm : List.Perm (sortKVs l1) (sortKVs l2) :=
    (sortKVs_perm l1).trans (hp.trans (sortKVs_perm l2).symm)
  have hnd1 : ((sortKVs l1).map Prod.fst).Nodup :=
    (((sortKVs_perm l1).map Prod.fst).nodup_iff).mpr hnd
  have hnd2 : ((sortKVs l2).map Prod.fst).Nodup :=
    (((sortKVs_perm l2).map Prod.fst).nodup_iff).mpr ((hp.map Prod.fst).nodup_iff.mp hnd)
  exact List.eq_of_perm_of_sorted hperm
    (sorted_strict_of_nodup (sortKVs_sorted l1) hnd1)
    (sorted_strict_of_nodup (sortKVs_sorted l2) hnd2)

mutual

/-- Well-formed documents: every object's keys are distinct, recursively
(true of everything `json.load` can return). -/
def jsonWF : Json → Bool
  | .null => true
  | .bool _ => true
  | .num _ => true
  | .str _ => true
  | .arr xs => arrWF xs
  | .obj kvs => decide (kvs.toList.map Prod.fst).Nodup && objWF kvs

def arrWF : JsonArr → Bool
  | .nil => true
  | .cons x t => jsonWF x && arrWF t

def objWF : JsonObj → Bool
  | .nil => true
  | .cons _ v t => jsonWF v && objWF t

end

mutual

/-- Same content up to object key ordering (recursively). -/
inductive JEquiv : Json → Json → Prop where
  | nullE : JEquiv .null .null
  | boolE (b : Bool) : JEquiv (.bool b) (.bool b)
  | numE (n : Int) : JEquiv (.num n) (.num n)
  | strE (s : String) : JEquiv (.str s) (.str s)
  | arrE (xs ys : JsonArr) : JAEquiv xs ys → JEquiv (.arr xs) (.arr ys)
  | objE (kvs1 kvs2 : JsonObj) (mid : List (String × Json)) :
      kvs1.toList.Perm mid → JKVs mid kvs2.toList → JEquiv (.obj kvs1) (.obj kvs2)

/-- Pointwise equivalence of arrays. -/
inductive JAEquiv : JsonArr → JsonArr → Prop where
  | nilE : JAEquiv .nil .nil
  | consE (x y : Json) (t u : JsonArr) : JEquiv x y → JAEquiv t u → JAEquiv (.cons x t) (.cons y u)

/-- Pointwise key-equal, value-equivalent entry lists. -/
inductive JKVs : List (String × Json) → List (String × Json) → Prop where
  | nilK : JKVs [] []
  | consK (k : String) (v1 v2 : Json) (t1 t2 : List (String × Json)) :
      JEquiv v1 v2 → JKVs t1 t2 → JKVs ((k, v1) :: t1) ((k, v2) :: t2)

end

mutual

theorem jequiv_refl : ∀ a : Json, JEquiv a a
  | .null => .nullE
  | .bool b => .boolE b
  | .num n => .numE n
  | .str s => .strE s
  | .arr xs => .arrE xs xs (jaequiv_refl xs)
  | .obj kvs => .objE kvs kvs kvs.toList (List.Perm.refl _) (jkvs_refl kvs)

theorem jaequiv_refl : ∀ xs : JsonArr, JAEquiv xs xs
  | .nil => .nilE
  | .cons x t => .consE x x t t (jequiv_refl x) (jaequiv_refl t)

theorem jkvs_refl : ∀ kvs : JsonObj, JKVs kvs.toList kvs.toList
  | .nil => .nilK
  | .cons k v t => .consK k v v t.toList t.toList (jequiv_refl v) (jkvs_refl t)

end

theorem canonObj_toList : ∀ kvs : JsonObj,
    (canonObj kvs).toList = kvs.toList.map fun kv => (kv.1, canon kv.2)
  | .nil => rfl
  | .cons k v t => by simp [canonObj, JsonObj.toList, canonObj_toList t]

theorem objWF_values : ∀ {kvs : JsonObj}, objWF kvs = true →
    ∀ kv ∈ kvs.toList, jsonWF kv.2 = true
  | .nil, _, kv, hkv => by simp [JsonObj.toList] at hkv
  | .cons k v t, h, kv, hkv => by
    rw [objWF, Bool.and_eq_true] at h
    simp only [JsonObj.toList, List.mem_cons] at hkv
    rcases hkv with hkv | hkv
    · subst hkv; exact h.1
    · exact objWF_values h.2 kv hkv

theorem arrWF_values : ∀ {xs : JsonArr}, arrWF xs = true →
    ∀ x ∈ xs.toList, jsonWF x = true
  | .nil, _, x, hx => by simp [JsonArr.toList] at hx
  | .cons y t, h, x, hx => by
    rw [arrWF, Bool.and_eq_true] at h
    simp only [JsonArr.toList, List.mem_cons] at hx
    rcases hx with hx | hx
    · subst hx; exact h.1
    · exact arrWF_values h.2 x hx

theorem sizeOf_pos_json : ∀ a : Json, 0 < sizeOf a := by
  intro a
  cases a <;> simp_arith

theorem sizeOf_lt_of_memObj : ∀ (kvs : JsonObj) (kv : String × Json),
    kv ∈ kvs.toList → sizeOf kv.2 < sizeOf (Json.obj kvs)
  | .nil, kv, hkv => by simp [JsonObj.toList] at hkv
  | .cons k v t, kv, hkv => by
    simp only [JsonObj.toList, List.mem_cons] at hkv
    rcases hkv with hkv | hkv
    · subst hkv
      simp_arith
    · have := sizeOf_lt_of_memObj t kv hkv
      simp_arith at this ⊢
      omega

theorem sizeOf_lt_of_memArr : ∀ (xs : JsonArr) (x : Json),
    x ∈ xs.toList → sizeOf x < sizeOf (Json.arr xs)
  | .nil, x, hx => by simp [JsonArr.toList] at hx
  | .cons y t, x, hx => by
    simp only [JsonArr.toList, List.mem_cons] at hx
    rcases hx with hx | hx
    · subst hx
      simp_arith
    · have := sizeOf_lt_of_memArr t x hx
      simp_arith at this ⊢
      omega

theorem canonArr_equiv_aux (n : Nat)
    (ih : ∀ a b : Json, sizeOf a ≤ n → JEquiv a b → jsonWF a = true → canon a = canon b) :
    ∀ (xs ys : JsonArr), JAEquiv xs ys → arrWF xs = true →
      (∀ x ∈ xs.toList, sizeOf x ≤ n) → canonArr xs = canonArr ys
  | .nil, ys, h, _, _ => by cases h; rfl
  | .cons x t, ys, h, hwf, hsz => by
    cases h with
    | consE _ y _ u hx ht =>
      rw [show arrWF (.cons x t) = (jsonWF x && arrWF t) from rfl, Bool.and_eq_true] at hwf
      show JsonArr.cons (canon x) (canonArr t) = JsonArr.cons (canon y) (canonArr u)
      rw [ih x y (hsz x (by simp [JsonArr.toList])) hx hwf.1,
        canonArr_equiv_aux n ih t u ht hwf.2
          (fun z hz => hsz z (by simp [JsonArr.toList, hz]))]

theorem canonKVs_equiv_aux (n : Nat)
    (ih : ∀ a b : Json, sizeOf a ≤ n → JEquiv a b → jsonWF a = true → canon a = canon b) :
    ∀ (l1 l2 : List (String × Json)), JKVs l1 l2 →
      (∀ kv ∈ l1, jsonWF kv.2 = true) → (∀ kv ∈ l1, sizeOf kv.2 ≤ n) →
      l1.map (fun kv => (kv.1, canon kv.2)) = l2.map (fun kv => (kv.1, canon kv.2))
  | [], l2, h, _, _ => by cases h; rfl
  | (k, v1) :: t1, l2, h, hwf, hsz => by
    cases h with
    | consK _ _ v2 _ t2 hv ht =>
      simp only [List.map_cons]
      rw [ih v1 v2 (hsz (k, v1) (by simp)) hv (hwf (k, v1) (by simp)),
        canonKVs_equiv_aux n ih t1 t2 ht (fun kv hkv => hwf kv (by simp [hkv]))
          (fun kv hkv => hsz kv (by simp [hkv]))]

theorem canon_equiv_sized :
    ∀ n : Nat, ∀ a b : Json, sizeOf a ≤ n → JEquiv a b → jsonWF a = true →
      canon a = canon b := by
  intro n
  induction n with
  | zero =>
    intro a b hs _ _
    exact absurd hs (by have := sizeOf_pos_json a; omega)
  | succ n ih =>
    intro a b hs heq hwf
    cases heq with
    | nullE => rfl
    | boolE b1 => rfl
    | numE n1 => rfl
    | strE s1 => rfl
    | arrE xs ys h =>
      rw [show jsonWF (.arr xs) = arrWF xs from rfl] at hwf
      show Json.arr (canonArr xs) = Json.arr (canonArr ys)
      rw [canonArr_equiv_aux n ih xs ys h hwf (fun x hx => by
        have hlt := sizeOf_lt_of_memArr xs x hx
        simp_arith at hs hlt
        omega)]
    | objE kvs1 kvs2 mid hperm hkvs =>
      rw [show jsonWF (.obj kvs1) =
            (decide (kvs1.toList.map Prod.fst).Nodup && objWF kvs1) from rfl,
        Bool.and_eq_true] at hwf
      have hnd : (kvs1.toList.map Prod.fst).Nodup := of_decide_eq_true hwf.1
      have hvals : ∀ kv ∈ kvs1.toList, jsonWF kv.2 = true := objWF_values hwf.2
      have hmidvals : ∀ kv ∈ mid, jsonWF kv.2 = true := fun kv hkv =>
        hvals kv (hperm.mem_iff.mpr hkv)
      have hmidsz : ∀ kv ∈ mid, sizeOf kv.2 ≤ n := fun kv hkv => by
        have hlt := sizeOf_lt_of_memObj kvs1 kv (hperm.mem_iff.mpr hkv)
        simp_arith at hs hlt
        omega
      have hmap : mid.map (fun kv => (kv.1, canon kv.2)) =
          kvs2.toList.map (fun kv => (kv.1, canon kv.2)) :=
        canonKVs_equiv_aux n ih mid kvs2.toList hkvs hmidvals hmidsz
      show Json.obj (JsonObj.ofList (sortKVs (canonObj kvs1).toList)) =
        Json.obj (JsonObj.ofList (sortKVs (canonObj kvs2).toList))
      rw [canonObj_toList, canonObj_toList]
      have hperm2 : List.Perm (kvs1.toList.map fun kv => (kv.1, canon kv.2))
          (kvs2.toList.map fun kv => (kv.1, canon kv.2)) := by
        rw [← hmap]
        exact hperm.map _
      have hnd2 : ((kvs1.toList.map fun kv => (kv.1, canon kv.2)).map Prod.fst).Nodup := by
        have hsame : (kvs1.toList.map fun kv => (kv.1, canon kv.2)).map Prod.fst =
            kvs1.toList.map Prod.fst := by
          simp
        rw [hsame]
        exact hnd
      rw [sortKVs_eq_of_perm _ _ hperm2 hnd2]

/-- Key-order-equivalent well-formed documents canonicalize identically. -/
theorem canon_equiv {a b : Json} (heq : JEquiv a b) (hwf : jsonWF a = true) :
    canon a = canon b :=
  canon_equiv_sized (sizeOf a) a b le_rfl heq hwf

/-- `c2doc` with the single item's `body` changed from `"x"` to `"y"`. -/
def c6docB : Json := Json.mkObj
  [("meta", Json.mkObj [("owner", .str "o"), ("repo", .str "r"), ("pr", .num 9)]),
   ("policy", Json.mkObj [("confirm", .bool false)]),
   ("replies", Json.mkArr
     [Json.mkObj [("comment_id", .num 5), ("body", .str "y"), ("react", .str "+1")]])]

set_option maxRecDepth 4000 in
/-- C6.  The fingerprint is a digest of the canonicalized (recursively
key-sorted) document: any two well-formed documents with the same content
up to object key ordering — at any depth — have the same fingerprint; and
changing an item's `body` (here `"x"` to `"y"` in `c2doc`) changes the
fingerprint. -/
theorem fingerprint_stability :
    (∀ j1 j2 : Json, jsonWF j1 = true → JEquiv j1 j2 → fingerprint j1 = fingerprint j2) ∧
    fingerprint c2doc ≠ fingerprint c6docB := by
  constructor
  · intro j1 j2 hwf heq
    unfold fingerprint canonicalDumps
    rw [canon_equiv heq hwf]
  · have h1 : fingerprint c2doc = "40c08e311052" := rfl
    have h2 : fingerprint c6docB = "9a25ff3542e7" := rfl
    rw [h1, h2]
    decide

/-- A small document, and the same content with keys reordered at both
the top level and inside `meta`. -/
def c6doc1 : Json := Json.mkObj
  [("meta", Json.mkObj [("owner", .str "o"), ("pr", .num 9)]),
   ("replies", Json.mkArr [.num 1])]

def c6doc2 : Json := Json.mkObj
  [("replies", Json.mkArr [.num 1]),
   ("meta", Json.mkObj [("pr", .num 9), ("owner", .str "o")])]

/-- Witness for `fingerprint_stability`: the reordered documents share a
fingerprint. -/
theorem fingerprint_stability_witness : fingerprint c6doc1 = fingerprint c6doc2 := by
  have hmeta : JEquiv (Json.mkObj [("owner", .str "o"), ("pr", .num 9)])
      (Json.mkObj [("pr", .num 9), ("owner", .str "o")]) := by
    refine JEquiv.objE _ _ [("pr", .num 9), ("owner", .str "o")] ?_ ?_
    · exact List.Perm.swap _ _ []
    · exact JKVs.consK "pr" _ _ _ _ (jequiv_refl _)
        (JKVs.consK "owner" _ _ [] [] (jequiv_refl _) JKVs.nilK)
  have heq : JEquiv c6doc1 c6doc2 := by
    refine JEquiv.objE _ _
      [("replies", Json.mkArr [.num 1]),
       ("meta", Json.mkObj [("owner", .str "o"), ("pr", .num 9)])] ?_ ?_
    · exact List.Perm.swap _ _ []
    · exact JKVs.consK "replies" _ _ _ _ (jequiv_refl _)
        (JKVs.consK "meta" _ _ [] [] hmeta JKVs.nilK)
  exact fingerprint_stability.1 c6doc1 c6doc2 (by decide) heq

end PrComments
